import Mathlib

/-!
Verification of the Wortmann CSV import pipeline
(`csv_import_wortmann/doctype/csv_import_wortmann_settings/csv_import_wortmann_settings.py`).

The development shallowly embeds the row-reconciliation and invoice-assembly
pipeline.  Rows are records of the CSV columns the core logic reads; Python
floats are modelled as rationals (every finite IEEE double is a dyadic and
hence a decimal rational, and all numbers handled here arise from parsing
decimal strings); Python string numbers are parsed by an executable model of
`float()` over the sign/digits/dot/exponent grammar (whitespace trimming,
underscores and the `inf`/`nan` words are outside the model, as the pipeline
only feeds it CSV amount fields); frappe's `flt` additionally strips commas
before parsing and returns 0 on failure, which is modelled exactly.
External collaborators (master-data lookups, currency store, the totals
engine of the accounting system) are passed in as an explicit environment.
-/

namespace CsvWortmann

/-! ## Characters and digit strings -/

/-- Digit character for a value below ten (used by the decimal renderer,
a model of Python's `str` on floats). -/
def digitChar (n : Nat) : Char :=
  if n = 0 then '0' else if n = 1 then '1' else if n = 2 then '2'
  else if n = 3 then '3' else if n = 4 then '4' else if n = 5 then '5'
  else if n = 6 then '6' else if n = 7 then '7' else if n = 8 then '8' else '9'

/-- Numeric value of a digit character. -/
def digitVal (c : Char) : Nat := c.toNat - 48

/-- Longest digit prefix of a character list, with the remainder. -/
def digSpan : List Char → List Char × List Char
  | [] => ([], [])
  | c :: t =>
    if c.isDigit then
      let r := digSpan t
      (c :: r.1, r.2)
    else ([], c :: t)

/-- Value of a digit string read most-significant first. -/
def digitsValAux : Nat → List Char → Nat
  | a, [] => a
  | a, c :: t => digitsValAux (10 * a + digitVal c) t

/-- Value of a digit string. -/
def digitsVal (l : List Char) : Nat := digitsValAux 0 l

/-- Decimal digits of a natural number, fuel-driven so that the kernel can
evaluate it. -/
def natDigits : Nat → Nat → List Char
  | 0, _ => []
  | f + 1, n => if n < 10 then [digitChar n] else natDigits f (n / 10) ++ [digitChar (n % 10)]

/-- Decimal digits of a natural number (`n + 1` is always enough fuel). -/
def natToDigits (n : Nat) : List Char := natDigits (n + 1) n

/-! ## Executable rational arithmetic

Python floats are modelled as rationals.  Mathlib's `Rat.add`, `Rat.mul` and
`Rat.inv` are `@[irreducible]`, so the pipeline uses the smart constructors
`mkRat` and `Rat.divInt` directly; the bridge lemmas below prove these
wrappers are exactly the field operations of `ℚ`, so all algebraic reasoning
happens in `ℚ` while concrete runs still evaluate by `decide`. -/

/-- Addition of rationals in an executable form. -/
def qAdd (a b : ℚ) : ℚ := mkRat (a.num * b.den + b.num * a.den) (a.den * b.den)

/-- Multiplication of rationals in an executable form. -/
def qMul (a b : ℚ) : ℚ := mkRat (a.num * b.num) (a.den * b.den)

/-- Division of rationals in an executable form (0 on a zero divisor,
like `ℚ`). -/
def qDiv (a b : ℚ) : ℚ := Rat.divInt (a.num * b.den) (a.den * b.num)

/-- Absolute value of a rational in an executable form. -/
def qAbs (a : ℚ) : ℚ := if a.num < 0 then -a else a

/-- `10 ^ k` as a rational, in an executable form. -/
def powTenQ (k : Nat) : ℚ := ((10 ^ k : Nat) : ℚ)

/-! ## A model of Python `float()` and frappe `flt`

`pyParseFloat` parses `sign? (digits [. digits?] | . digits) ([eE] sign? digits)?`,
the decimal forms Python's `float` accepts on the strings this pipeline
produces; an ill-formed string parses to `none` (Python raises `ValueError`,
which every caller in the source converts into the value 0). -/

/-- Split an optional leading sign, returned as a rational factor. -/
def signSplitQ : List Char → ℚ × List Char
  | [] => (1, [])
  | c :: t => if c = '-' then (-1, t) else if c = '+' then (1, t) else (1, c :: t)

/-- Split an optional leading sign, returned as a flag for a negative sign. -/
def signSplitN : List Char → Bool × List Char
  | [] => (false, [])
  | c :: t => if c = '-' then (true, t) else if c = '+' then (false, t) else (false, c :: t)

/-- Parse the exponent tail (after the `e`/`E`): optional sign and a
non-empty digit string that must consume the rest of the input. -/
def parseExpTail (sg mant : ℚ) (t : List Char) : Option ℚ :=
  let es := signSplitN t
  let ds := digSpan es.2
  if ds.1 = [] ∨ ds.2 ≠ [] then none
  else if es.1 then some (qDiv (qMul sg mant) (powTenQ (digitsVal ds.1)))
  else some (qMul (qMul sg mant) (powTenQ (digitsVal ds.1)))

/-- Split an optional fractional part: a leading `.` takes the following
digit run, anything else contributes no fractional digits. -/
def fracSplit : List Char → List Char × List Char
  | [] => ([], [])
  | c :: t => if c = '.' then digSpan t else ([], c :: t)

/-- Value of the mantissa `ip.fp`. -/
def mantVal (ip fp : List Char) : ℚ :=
  qAdd ((digitsVal ip : Nat) : ℚ) (qDiv ((digitsVal fp : Nat) : ℚ) (powTenQ fp.length))

/-- Parse mantissa digits and an optional exponent tail; at least one
mantissa digit is required and the input must be consumed completely. -/
def pyParseMant (sg : ℚ) (ip : List Char) (fr : List Char × List Char) : Option ℚ :=
  if ip = [] ∧ fr.1 = [] then none
  else
    match fr.2 with
    | [] => some (qMul sg (mantVal ip fr.1))
    | c :: t => if c = 'e' ∨ c = 'E' then parseExpTail sg (mantVal ip fr.1) t else none

/-- Model of Python `float(s)` on a character list: `some` value, or `none`
where Python raises. -/
def pyParseFloat (cs : List Char) : Option ℚ :=
  pyParseMant (signSplitQ cs).1 (digSpan (signSplitQ cs).2).1
    (fracSplit (digSpan (signSplitQ cs).2).2)

/-- Replace every occurrence of a character (Python `str.replace` with a
single-character pattern). -/
def replAll (a b : Char) (l : List Char) : List Char :=
  l.map fun c => if c = a then b else c

/-- Replace only the first occurrence of a character (used to state the
specification's wording of the normalizer). -/
def replFirst (a b : Char) : List Char → List Char
  | [] => []
  | c :: t => if c = a then b :: t else c :: replFirst a b t

/-- Model of frappe's `flt` on a string argument: strip every comma
(`s.replace(",", "")`), parse as float, and return 0 on failure. -/
def flt (l : List Char) : ℚ :=
  match pyParseFloat (l.filter fun c => !(c = ',')) with
  | some q => q
  | none => 0

/-- `convert_german_number` (source lines 198-205): empty input yields 0,
otherwise every comma is replaced by a period (`str.replace`) and the result
goes through `flt`; `flt` itself never raises, so the `except` branch of the
source is dead and any unparsable input already yields 0 through `flt`. -/
def convert_german_number (s : String) : ℚ :=
  if s.toList = [] then 0 else flt (replAll ',' '.' s.toList)

/-! ## A model of Python `str` on floats

Used at source lines 451 and 457, `str(x).replace('.', ',')`.  A normalized
rational with denominator `2^a * 5^b` (every finite IEEE double is one) is
rendered as optional minus sign, integer digits, `.`, fractional digits;
because the denominator is reduced, the shortest-repr behaviour of Python
(`str(3.0) = "3.0"`, `str(135.4) = "135.4"`) is reproduced on this domain. -/

/-- How many times `p` divides `n` (fuel-driven so the kernel evaluates it). -/
def multPAux (p : Nat) : Nat → Nat → Nat
  | 0, _ => 0
  | f + 1, n => if n % p = 0 ∧ n ≠ 0 then multPAux p f (n / p) + 1 else 0

/-- How many times `p` divides `n`. -/
def multP (p n : Nat) : Nat := multPAux p n n

/-- Rationals with a finite decimal expansion (denominator `2^a * 5^b`);
the domain on which the renderer is exact.  Every finite IEEE double
satisfies this, its reduced denominator being a power of two. -/
def hasDecimalDen (q : ℚ) : Prop :=
  q.den = 2 ^ multP 2 q.den * 5 ^ multP 5 q.den

instance (q : ℚ) : Decidable (hasDecimalDen q) := by
  unfold hasDecimalDen
  infer_instance

/-- Model of Python `str` on a float value. -/
def pyStr (q : ℚ) : List Char :=
  let k := max (multP 2 q.den) (multP 5 q.den)
  let m := q.num.natAbs * 10 ^ k / q.den
  let fpart :=
    if k = 0 then ['0']
    else List.replicate (k - (natToDigits (m % 10 ^ k)).length) '0' ++ natToDigits (m % 10 ^ k)
  (if q.num < 0 then ['-'] else []) ++ natToDigits (m / 10 ^ k) ++ '.' :: fpart

/-- The denormalizer of the merged row's string fields (source lines 451 and
457): `str(x).replace('.', ',')`. -/
def denormalize (q : ℚ) : String := String.mk (replAll '.' ',' (pyStr q))

/-- The number normalizer exactly as the specification words it: empty or
missing input yields 0; otherwise the FIRST comma is replaced by a period and
the result is parsed as a float, any unparsable input yielding 0.  Reference
definition for the refinement theorem of claim C4. -/
def convert_german_number_as_specified (s : String) : ℚ :=
  if s.toList = [] then 0 else
    match pyParseFloat (replFirst ',' '.' s.toList) with
    | some q => q
    | none => 0

/-! ## Rows and the row matcher

A `Row` is one parsed CSV line.  The `DictReader` of the source produces a
mapping from every header name to a string; the record below carries the
seven columns the core logic reads, plus the remaining columns as an
association list so that frame properties ("no other field changes") are
expressible. -/

structure Row where
  CustomCustomerNr : String
  ReferenceNumber : String
  ArticleNumber_Mandant : String
  Amount : String
  Price : String
  TotalPrice : String
  Currency : String
  extra : List (String × String)
deriving DecidableEq, Repr

/-- The composite match key comparison of `find_corresponding_row` and
`find_corresponding_negative_row` (source lines 405, 429):
`CustomCustomerNr`, `ReferenceNumber` and `ArticleNumber_Mandant` must all
be equal. -/
def keyMatch (a b : Row) : Bool :=
  a.CustomCustomerNr == b.CustomCustomerNr &&
    a.ReferenceNumber == b.ReferenceNumber &&
    a.ArticleNumber_Mandant == b.ArticleNumber_Mandant

/-- One adjacency probe of `find_corresponding_row` (source lines 408-415):
index bounds check, key match, then a strictly positive converted amount. -/
def tryAdjacentPos (row : Row) (all_rows : List Row) (j : Int) : Option (Row × Nat) :=
  if 0 ≤ j then
    match all_rows.get? j.toNat with
    | some check_row =>
      if keyMatch row check_row then
        if 0 < convert_german_number check_row.Amount
        then some (check_row, j.toNat) else none
      else none
    | none => none
  else none

/-- One adjacency probe of `find_corresponding_negative_row` (source lines
432-439): index bounds check, key match, then a strictly negative converted
amount. -/
def tryAdjacentNeg (row : Row) (all_rows : List Row) (j : Int) : Option (Row × Nat) :=
  if 0 ≤ j then
    match all_rows.get? j.toNat with
    | some check_row =>
      if keyMatch row check_row then
        if convert_german_number check_row.Amount < 0
        then some (check_row, j.toNat) else none
      else none
    | none => none
  else none

/-- The fallback scan of `find_corresponding_row` (source lines 418-423):
all rows in ascending index order, excluding the query row's own index,
first key-matching row with positive converted amount. -/
def scanFrom (negative_row : Row) (current_index : Nat) : Nat → List Row → Option (Row × Nat)
  | _, [] => none
  | j, check_row :: rest =>
    if j ≠ current_index ∧ keyMatch negative_row check_row = true ∧
        0 < convert_german_number check_row.Amount
    then some (check_row, j)
    else scanFrom negative_row current_index (j + 1) rest

/-- `find_corresponding_row` (source lines 403-425): adjacent offsets −1
then +1 first, then the full ascending scan. -/
def find_corresponding_row (negative_row : Row) (all_rows : List Row) (current_index : Nat) :
    Option (Row × Nat) :=
  match tryAdjacentPos negative_row all_rows ((current_index : Int) - 1) with
  | some r => some r
  | none =>
    match tryAdjacentPos negative_row all_rows ((current_index : Int) + 1) with
    | some r => some r
    | none => scanFrom negative_row current_index 0 all_rows

/-- `find_corresponding_negative_row` (source lines 427-441): adjacent
offsets −1 then +1 only, with no fallback scan. -/
def find_corresponding_negative_row (positive_row : Row) (all_rows : List Row)
    (current_index : Nat) : Option (Row × Nat) :=
  match tryAdjacentNeg positive_row all_rows ((current_index : Int) - 1) with
  | some r => some r
  | none => tryAdjacentNeg positive_row all_rows ((current_index : Int) + 1)

/-- `combine_rows` (source lines 443-462): copy of the positive row with
`Amount` and `TotalPrice` replaced by the rendered sums; the final
`combined['Price'] = positive_row.get('Price', 0)` rewrites `Price` with the
positive row's own value that the copy already holds. -/
def combine_rows (negative_row positive_row : Row) : Row :=
  { positive_row with
      Amount := denormalize (qAdd (convert_german_number positive_row.Amount)
        (convert_german_number negative_row.Amount))
      TotalPrice := denormalize (qAdd (convert_german_number positive_row.TotalPrice)
        (convert_german_number negative_row.TotalPrice)) }

/-! ## The reconciliation pass of `process_csv_import` (source lines 54-92) -/

structure ReconState where
  processed_rows : List Row
  skip_indices : List Nat
  total_licenses_before : ℚ
  errors : List String
deriving Repr

/-- Error text of source line 78 (`i + 2` is the 1-based CSV line number
counting the header). -/
def lineErrNoPositive (i : Nat) : String :=
  "No corresponding positive row found for negative amount in line " ++ toString (i + 2)

/-- One iteration of the reconciliation loop (source lines 58-92) at index
`i`: skipped indices are passed over; otherwise the amount is normalized and
accumulated as `abs` into the running total, and the row is merged, dropped
with an error, deferred, or emitted standalone. -/
def reconStep (rows : List Row) (i : Nat) (row : Row) (st : ReconState) : ReconState :=
  if i ∈ st.skip_indices then st
  else
    let amount := flt (replAll ',' '.' row.Amount.toList)
    let tot := qAdd st.total_licenses_before (qAbs amount)
    if amount < 0 then
      match find_corresponding_row row rows i with
      | some found =>
        { st with
            processed_rows := st.processed_rows ++ [combine_rows row found.1]
            skip_indices := found.2 :: st.skip_indices
            total_licenses_before := tot }
      | none =>
        { st with
            errors := st.errors ++ [lineErrNoPositive i]
            total_licenses_before := tot }
    else
      match find_corresponding_negative_row row rows i with
      | some found =>
        if found.2 ∈ st.skip_indices then
          { st with
              processed_rows := st.processed_rows ++ [row]
              total_licenses_before := tot }
        else { st with total_licenses_before := tot }
      | none =>
        { st with
            processed_rows := st.processed_rows ++ [row]
            total_licenses_before := tot }

/-- The `for i, row in enumerate(rows)` loop of the reconciliation pass. -/
def reconAux (rows : List Row) : Nat → List Row → ReconState → ReconState
  | _, [], st => st
  | i, r :: rest, st => reconAux rows (i + 1) rest (reconStep rows i r st)

/-- The whole reconciliation pass of `process_csv_import` over the parsed
row list (source lines 54-92), starting from empty output, empty skip set,
zero running total and no errors. -/
def reconcilePass (rows : List Row) : ReconState :=
  reconAux rows 0 rows ⟨[], [], 0, []⟩

/-! ## Instrumented reconciliation (records the visited rows)

Identical to `reconAux` except that it also records, in order, the rows
that were not passed over by the skip set; used to state what the running
`total_licenses_before` actually sums over. -/

structure ReconStateV where
  base : ReconState
  visited : List Row

/-- Instrumented variant of `reconStep`. -/
def reconStepV (rows : List Row) (i : Nat) (row : Row) (st : ReconStateV) : ReconStateV :=
  if i ∈ st.base.skip_indices then st
  else { base := reconStep rows i row st.base, visited := st.visited ++ [row] }

/-- Instrumented variant of `reconAux`. -/
def reconAuxV (rows : List Row) : Nat → List Row → ReconStateV → ReconStateV
  | _, [], st => st
  | i, r :: rest, st => reconAuxV rows (i + 1) rest (reconStepV rows i r st)

/-- The rows the reconciliation pass actually visits (does not skip). -/
def visitedRows (rows : List Row) : List Row :=
  (reconAuxV rows 0 rows ⟨⟨[], [], 0, []⟩, []⟩).visited

/-! ## Settings, accounts and the tax-rate resolver -/

/-- Python `str.strip()`: drop whitespace from both ends. -/
def pyStrip (l : List Char) : List Char :=
  ((l.dropWhile fun c => c.isWhitespace).reverse.dropWhile fun c => c.isWhitespace).reverse

/-- A discount child row (`wortmann_rabattwerte_je_kunde`). -/
structure DiscountRow where
  kundenname : String
  rabatt_wert_in_prozent : ℚ
deriving Repr

/-- The settings document fields the pipeline reads.  `tax_account = none`
models a falsy (unset) `tax_account`. -/
structure Settings where
  tax_account : Option String
  nullrechnungen_unterdruecken : Bool
  wortmann_rabattwerte_je_kunde : List DiscountRow

/-- The attributes of an Account record read by `get_dynamic_tax_rate`.
An absent or falsy (`None`/`0`) numeric attribute is modelled as `none` or
`some 0`; truthiness is `some r` with `r ≠ 0`. -/
structure AccountRec where
  tax_rate : Option ℚ
  rate : Option ℚ
  account_name : String

/-- One attempt of the regex `(\d+(?:\.\d+)?)\s*%` at a fixed position:
greedy digits, an optional fraction (a dot followed by at least one digit),
optional whitespace, then a literal `%`; returns group 1.  Because the
characters after a maximal digit run cannot begin another digit, the greedy
match needs no backtracking and this deterministic reading is exact. -/
def matchPercentAt (l : List Char) : Option (List Char) :=
  if (digSpan l).1 = [] then none
  else
    match (digSpan l).2 with
    | c :: t =>
      if c = '.' then
        if (digSpan t).1 = [] then none
        else
          match ((digSpan t).2.dropWhile fun c => c.isWhitespace) with
          | c2 :: _ => if c2 = '%' then some ((digSpan l).1 ++ '.' :: (digSpan t).1) else none
          | [] => none
      else
        match ((c :: t).dropWhile fun c => c.isWhitespace) with
        | c2 :: _ => if c2 = '%' then some (digSpan l).1 else none
        | [] => none
    | [] => none

/-- `re.search` of the perc-rate pattern: first matching position, scanning
left to right. -/
def searchPercent : List Char → Option (List Char)
  | [] => none
  | c :: t =>
    match matchPercentAt (c :: t) with
    | some g => some g
    | none => searchPercent t

/-- The name-based fallback of `get_dynamic_tax_rate` (source lines
392-397): extract the percentage pattern from the account name, else
19.0. -/
def rateFromName (account : AccountRec) : ℚ :=
  match searchPercent account.account_name.toList with
  | some grp => flt grp
  | none => 19

/-- Second step of the attribute chain (source line 389): a truthy `rate`
attribute, else the account-name fallback. -/
def rateStep2 (account : AccountRec) : ℚ :=
  match account.rate with
  | some r => if r = 0 then rateFromName account else r
  | none => rateFromName account

/-- `get_dynamic_tax_rate` (source lines 377-401).  `accountLookup` is the
external `frappe.get_doc("Account", ·)`; a failing lookup raises, which the
`except` branch converts to 19.0. -/
def get_dynamic_tax_rate (accountLookup : String → Option AccountRec)
    (settings_doc : Settings) : ℚ :=
  match settings_doc.tax_account with
  | none => 19
  | some acc_id =>
    match accountLookup acc_id with
    | none => 19
    | some account =>
      match account.tax_rate with
      | some r => if r = 0 then rateStep2 account else r
      | none => rateStep2 account

/-! ## Currency resolution, customers, items, invoices -/

/-- `get_currency_mapping` (source lines 207-233). -/
def get_currency_mapping : List (String × String) :=
  [("Euro", "EUR"), ("US Dollar", "USD"), ("United States Dollar", "USD"),
   ("Swiss Franc", "CHF"), ("Pound Sterling", "GBP"), ("British Pound", "GBP"),
   ("Japanese Yen", "JPY"), ("Chinese Yuan", "CNY"), ("Australian Dollar", "AUD"),
   ("Canadian Dollar", "CAD"), ("EUR", "EUR"), ("USD", "USD"), ("CHF", "CHF"),
   ("GBP", "GBP"), ("JPY", "JPY"), ("CNY", "CNY"), ("AUD", "AUD"), ("CAD", "CAD")]

/-- A customer record: (`name`, `customer_name`). -/
structure CustomerRec where
  name : String
  customer_name : String

/-- An item record: `name`, `item_name` and optional `description`. -/
structure ItemRec where
  name : String
  item_name : String
  description : Option String

/-- A sales-invoice line item as populated by the assembler. -/
structure InvoiceItem where
  item_code : String
  customer_item_code : String
  description : String
  qty : ℚ
  rate : ℚ
  amount : ℚ
deriving Repr

/-- A tax child row as populated by the assembler. -/
structure TaxRow where
  charge_type : String
  account_head : String
  rate : ℚ
  description : String
deriving Repr

/-- The draft invoice fields populated by the assembler.  `grand_total` is
written by the external totals engine. -/
structure Invoice where
  customer : String
  currency : String
  conversion_rate : ℚ
  posting_date : String
  due_date : String
  update_stock : Nat
  additional_discount_percentage : ℚ
  items : List InvoiceItem
  taxes : List TaxRow
  grand_total : ℚ
deriving Repr

/-- The external collaborators consumed by the pipeline (master data,
currency store, dates, the accounting engine's totals computation).
`calcTotals` returns the grand total the engine computes for the assembled
invoice, or `none` where `run_method` raises. -/
structure Env where
  customers : String → Option CustomerRec
  items : String → Option ItemRec
  accounts : String → Option AccountRec
  defaultCurrency : String
  currencyExists : String → Bool
  rateExact : String → String → Option ℚ
  rateLatest : String → String → Option ℚ
  calcTotals : Invoice → Option ℚ
  today : String
  dueDate : String

/-- `get_invoice_currency` (source lines 254-277): trim, static mapping,
then pass-through of a currency known to the store, else the company
default. -/
def get_invoice_currency (env : Env) (csv_currency : String) : String :=
  let c := String.mk (pyStrip csv_currency.toList)
  match get_currency_mapping.find? (fun p => p.1 == c) with
  | some p => p.2
  | none => if env.currencyExists c then c else env.defaultCurrency

/-- `get_conversion_rate` (source lines 465-509): 1 for equal currencies,
else the dated selling rate, else the latest selling rate, else 1. -/
def get_conversion_rate (env : Env) (fromC toC : String) : ℚ :=
  if fromC = toC then 1
  else
    match env.rateExact fromC toC with
    | some r => r
    | none =>
      match env.rateLatest fromC toC with
      | some r => r
      | none => 1

/-- `get_customer_discount` (source lines 623-631): first row whose truthy
`kundenname` trims to the customer name, else 0. -/
def get_customer_discount (customer_name : String) (discount_table : List DiscountRow) : ℚ :=
  match discount_table.find? (fun row => row.kundenname != "" &&
      (String.mk (pyStrip row.kundenname.toList) ==
        String.mk (pyStrip customer_name.toList))) with
  | some row => row.rabatt_wert_in_prozent
  | none => 0

/-! ## Invoice assembly (`create_wortmann_sales_invoice_safe`, lines 512-621)
and the per-customer loop of `process_csv_import` (lines 94-164) -/

/-- Error text of source line 577 (the per-item `except` inside the
assembler; the only exception this model can raise there is the indexing of
an empty item lookup). -/
def itemAddErr (art nr : String) : String :=
  "Error adding item " ++ art ++ " to invoice for customer " ++ nr ++
    ": list index out of range"

/-- Error text of source line 590. -/
def noTaxAccountErr (nr : String) : String :=
  "No tax account configured for customer " ++ nr

/-- Error text of source line 602/608 (totals-calculation failure). -/
def calcTotalsErr (nr : String) : String :=
  "Error calculating totals for customer " ++ nr ++ ": calculation failed"

/-- Error text of source line 620 (outer `except` of the assembler). -/
def createErr (nr : String) : String :=
  "Error creating invoice for customer " ++ nr ++ ": list index out of range"

/-- Error text of source line 123. -/
def customerNotFoundErr (nr : String) : String :=
  "Customer not found for internal number: " ++ nr

/-- Error text of source line 140. -/
def itemNotFoundErr (art nr : String) : String :=
  "Item not found for external article number: " ++ art ++ " (Customer: " ++ nr ++ ")"

/-- Error text of source line 146. -/
def invalidQtyErr (q : ℚ) (art nr : String) : String :=
  "Invalid quantity " ++ toString q ++ " for item " ++ art ++ " (Customer: " ++ nr ++ ")"

/-- Error text of source line 160. -/
def noValidItemsErr (nr : String) : String :=
  "No valid items found for customer " ++ nr

/-- Error text of source line 99. -/
def missingCustomerNrErr : String := "Missing CustomCustomerNr in row"

/-- The `description or item_name` fallback of source line 569. -/
def descOf (item : ItemRec) : String :=
  match item.description with
  | some s => if s = "" then item.item_name else s
  | none => item.item_name

/-- The per-row loop of the assembler (source lines 548-578): look the item
up (a failed lookup raises at the `[0]` indexing and is caught per row with
an error), convert the German numbers, skip non-positive quantities
silently, and append the line item. -/
def addItemsAux (env : Env) (customer_nr : String) :
    List Row → Invoice × List String × Nat → Invoice × List String × Nat
  | [], acc => acc
  | row :: rest, (inv, errs, n) =>
    match env.items (String.mk (pyStrip row.ArticleNumber_Mandant.toList)) with
    | none =>
      addItemsAux env customer_nr rest
        (inv, errs ++ [itemAddErr (String.mk (pyStrip row.ArticleNumber_Mandant.toList))
          customer_nr], n)
    | some item =>
      if convert_german_number row.Amount ≤ 0 then
        addItemsAux env customer_nr rest (inv, errs, n)
      else
        addItemsAux env customer_nr rest
          ({ inv with items := inv.items ++
              [{ item_code := item.name
                 customer_item_code := String.mk (pyStrip row.ArticleNumber_Mandant.toList)
                 description := descOf item
                 qty := convert_german_number row.Amount
                 rate := convert_german_number row.Price
                 amount := convert_german_number row.TotalPrice }] },
            errs, n + 1)

/-- The result of one assembler call: the invoice it returned (`none` when
it was discarded or failed), the error list as extended by the call, and
whether the invoice reached the persistence step (`invoice.insert`). -/
structure CreateResult where
  invoice : Option Invoice
  errors : List String
  persisted : Bool
deriving Repr

/-- `create_wortmann_sales_invoice_safe` (source lines 512-621).  The
customer lookup was validated by the caller but the `[0]` indexing raises
into the outer `except` when it fails; currency/rate/discount resolution,
the item loop, the `items_added == 0` early return, the discount and tax
application, the delegated totals computation, and the zero-total
suppression check (line 611) that returns `None` BEFORE `invoice.insert`
(line 615). -/
def create_wortmann_sales_invoice_safe (env : Env) (customer_nr : String)
    (customer_rows : List Row) (settings_doc : Settings) (errors : List String) :
    CreateResult :=
  match env.customers customer_nr with
  | none => { invoice := none, errors := errors ++ [createErr customer_nr], persisted := false }
  | some customer =>
    let invoice_currency :=
      get_invoice_currency env (match customer_rows with | [] => "" | r :: _ => r.Currency)
    let inv0 : Invoice :=
      { customer := customer.name
        currency := invoice_currency
        conversion_rate := get_conversion_rate env invoice_currency env.defaultCurrency
        posting_date := env.today
        due_date := env.dueDate
        update_stock := 0
        additional_discount_percentage := 0
        items := []
        taxes := []
        grand_total := 0 }
    let discount := get_customer_discount customer.customer_name
      settings_doc.wortmann_rabattwerte_je_kunde
    let r1 := addItemsAux env customer_nr customer_rows (inv0, errors, 0)
    if r1.2.2 = 0 then { invoice := none, errors := r1.2.1, persisted := false }
    else
      let inv1 := if 0 < discount
        then { r1.1 with additional_discount_percentage := discount } else r1.1
      let r2 : Invoice × List String :=
        match settings_doc.tax_account with
        | none => (inv1, r1.2.1 ++ [noTaxAccountErr customer_nr])
        | some acc =>
          ({ inv1 with taxes := inv1.taxes ++
              [{ charge_type := "On Net Total"
                 account_head := acc
                 rate := get_dynamic_tax_rate env.accounts settings_doc
                 description := "VAT " ++ toString (get_dynamic_tax_rate env.accounts settings_doc)
                   ++ "%" }] }, r1.2.1)
      let r3 : Invoice × List String :=
        match env.calcTotals r2.1 with
        | some g => ({ r2.1 with grand_total := g }, r2.2)
        | none => (r2.1, r2.2 ++ [calcTotalsErr customer_nr])
      if settings_doc.nullrechnungen_unterdruecken ∧ r3.1.grand_total = 0 then
        { invoice := none, errors := r3.2, persisted := false }
      else { invoice := some r3.1, errors := r3.2, persisted := true }

/-- The per-customer item validation of `process_csv_import` (source lines
127-149): a blank (whitespace-only) article number drops the row with NO
error; an unknown article number or a non-positive quantity drops the row
WITH an error. -/
def validateRowsAux (env : Env) (customer_nr : String) :
    List Row → List Row × List String → List Row × List String
  | [], acc => acc
  | row :: rest, (valid, errs) =>
    if String.mk (pyStrip row.ArticleNumber_Mandant.toList) = "" then
      validateRowsAux env customer_nr rest (valid, errs)
    else
      match env.items (String.mk (pyStrip row.ArticleNumber_Mandant.toList)) with
      | none =>
        validateRowsAux env customer_nr rest
          (valid, errs ++ [itemNotFoundErr
            (String.mk (pyStrip row.ArticleNumber_Mandant.toList)) customer_nr])
      | some _ =>
        if convert_german_number row.Amount ≤ 0 then
          validateRowsAux env customer_nr rest
            (valid, errs ++ [invalidQtyErr (convert_german_number row.Amount)
              (String.mk (pyStrip row.ArticleNumber_Mandant.toList)) customer_nr])
        else validateRowsAux env customer_nr rest (valid ++ [row], errs)

/-- The outcome accumulators of the per-customer loop. -/
structure CustomerLoopState where
  invoices_created : Nat
  total_licenses_after : ℚ
  successful_customers : List String
  errors : List String
deriving Repr

/-- One iteration of the per-customer loop (source lines 114-164):
customer lookup, item validation, invoice creation, and the outcome
bookkeeping on a returned invoice. -/
def processCustomerStep (env : Env) (settings_doc : Settings) (customer_nr : String)
    (customer_rows : List Row) (st : CustomerLoopState) : CustomerLoopState :=
  match env.customers customer_nr with
  | none => { st with errors := st.errors ++ [customerNotFoundErr customer_nr] }
  | some _ =>
    let v := validateRowsAux env customer_nr customer_rows ([], st.errors)
    if v.1 ≠ [] then
      let res := create_wortmann_sales_invoice_safe env customer_nr v.1 settings_doc v.2
      match res.invoice with
      | some inv =>
        { invoices_created := st.invoices_created + 1
          total_licenses_after :=
            qAdd st.total_licenses_after ((inv.items.map fun it => it.qty).foldl qAdd 0)
          successful_customers := st.successful_customers ++ [customer_nr]
          errors := res.errors }
      | none => { st with errors := res.errors }
    else { st with errors := v.2 ++ [noValidItemsErr customer_nr] }

/-- The per-customer loop over the grouped buckets. -/
def processCustomers (env : Env) (settings_doc : Settings) :
    List (String × List Row) → CustomerLoopState → CustomerLoopState
  | [], st => st
  | (nr, rows) :: rest, st =>
    processCustomers env settings_doc rest (processCustomerStep env settings_doc nr rows st)

/-- Append a row to its customer's bucket, preserving dict insertion
order (source lines 102-104). -/
def addToBucket : List (String × List Row) → String → Row → List (String × List Row)
  | [], nr, row => [(nr, [row])]
  | (k, rs) :: rest, nr, row =>
    if k = nr then (k, rs ++ [row]) :: rest else (k, rs) :: addToBucket rest nr row

/-- The grouping loop of `process_csv_import` (source lines 94-107): rows
with a blank customer number are dropped with an error. -/
def groupRows : List Row → List (String × List Row) × List String →
    List (String × List Row) × List String
  | [], acc => acc
  | row :: rest, (buckets, errs) =>
    if String.mk (pyStrip row.CustomCustomerNr.toList) = "" then
      groupRows rest (buckets, errs ++ [missingCustomerNrErr])
    else
      groupRows rest
        (addToBucket buckets (String.mk (pyStrip row.CustomCustomerNr.toList)) row, errs)

/-! ## The Matcher as the specification words it (reference for claim C3) -/

/-- Does the row at index `j` exist, match the key and have the requested
sign?  Written from the specification's description of the Matcher. -/
def specQualifies (wantPositive : Bool) (row : Row) (all_rows : List Row) (j : Nat) : Bool :=
  match all_rows.get? j with
  | some cr => keyMatch row cr &&
      (if wantPositive then decide (0 < convert_german_number cr.Amount)
       else decide (convert_german_number cr.Amount < 0))
  | none => false

/-- The Matcher as specified (spec §4.2): check the physically adjacent
indices `i − 1` then `i + 1` and return an adjacent qualifying row
immediately; only with `fallback` (the negative→positive direction) scan
all rows in ascending index order excluding `i` itself; without fallback
(positive→negative) return `none`. -/
def find_match_as_specified (wantPositive fallback : Bool) (row : Row)
    (all_rows : List Row) (i : Nat) : Option (Row × Nat) :=
  match (((if i = 0 then [] else [i - 1]) ++ [i + 1]).filter
      (specQualifies wantPositive row all_rows)).head? with
  | some j => (all_rows.get? j).map fun cr => (cr, j)
  | none =>
    if fallback then
      match ((List.range all_rows.length).filter fun j =>
          !(j == i) && specQualifies wantPositive row all_rows j).head? with
      | some j => (all_rows.get? j).map fun cr => (cr, j)
      | none => none
    else none

/-- First index in `[j, j + cnt)` satisfying `Q` (used to relate the
source's scan to the specification's ascending scan). -/
def firstQualifying (Q : Nat → Bool) : Nat → Nat → Option Nat
  | _, 0 => none
  | j, cnt + 1 => if Q j then some j else firstQualifying Q (j + 1) cnt

/-! ## Concrete scenarios used by the claim theorems -/

/-- First row of the C1 scenario: (CustCorp, Ref1, Art1, Amount 5). -/
def c1row1 : Row := ⟨"CustCorp", "Ref1", "Art1", "5", "10", "50", "Euro", []⟩

/-- Second row of the C1 scenario: (CustCorp, Ref1, Art1, Amount −2). -/
def c1row2 : Row := ⟨"CustCorp", "Ref1", "Art1", "-2", "10", "-20", "Euro", []⟩

/-- Third row of the C1 scenario: (CustCorp, Ref2, Art2, Amount 3). -/
def c1row3 : Row := ⟨"CustCorp", "Ref2", "Art2", "3", "10", "30", "Euro", []⟩

/-- The C1 input. -/
def c1rows : List Row := [c1row1, c1row2, c1row3]

/-- C2 counterexample, row 0: positive 5, key (C, R, A). -/
def c2rowP0 : Row := ⟨"C", "R", "A", "5", "10", "50", "Euro", []⟩

/-- C2 counterexample, row 1: negative −2, same key. -/
def c2rowN1 : Row := ⟨"C", "R", "A", "-2", "10", "-20", "Euro", []⟩

/-- C2 counterexample, row 2: positive 3, same key. -/
def c2rowP2 : Row := ⟨"C", "R", "A", "3", "10", "30", "Euro", []⟩

/-- The C2 counterexample input. -/
def c2rows : List Row := [c2rowP0, c2rowN1, c2rowP2]

/-- C2 witness scenario: positive row first, its negative partner right after. -/
def c2wP : Row := ⟨"W", "R", "A", "5", "10", "50", "Euro", []⟩

/-- C2 witness scenario: the adjacent negative partner. -/
def c2wN : Row := ⟨"W", "R", "A", "-2", "10", "-20", "Euro", []⟩

/-- C9 scenario: a negative row that precedes its positive merge partner. -/
def c9rowN : Row := ⟨"C", "R", "A", "-2", "10", "-20", "Euro", []⟩

/-- C9 scenario: the positive partner, skipped before being visited. -/
def c9rowP : Row := ⟨"C", "R", "A", "5", "10", "50", "Euro", []⟩

/-- A concrete environment for the C6 witness: every lookup succeeds and
the totals engine computes a zero grand total. -/
def c6env : Env :=
  { customers := fun _ => some ⟨"CUST-1", "Corp"⟩
    items := fun _ => some ⟨"ITM-1", "Item", none⟩
    accounts := fun _ => none
    defaultCurrency := "EUR"
    currencyExists := fun _ => false
    rateExact := fun _ _ => none
    rateLatest := fun _ _ => none
    calcTotals := fun _ => some 0
    today := "2025-01-01"
    dueDate := "2025-02-01" }

/-- Settings for the C6 witness: suppression on, a tax account configured. -/
def c6settings : Settings := ⟨some "VAT 19 % - C", true, []⟩

/-- A valid row for the C6 witness. -/
def c6row : Row := ⟨"1000", "R1", "A1", "1", "10", "10", "Euro", []⟩

/-- A row with a whitespace-only article number for the C10 witness. -/
def c10row : Row := ⟨"1000", "R1", "  ", "1", "10", "10", "Euro", []⟩

theorem digSpan_append (l : List Char) : (digSpan l).1 ++ (digSpan l).2 = l := by
  induction l with
  | nil => rfl
  | cons c t ih =>
    by_cases h : c.isDigit <;> simp [digSpan, h, ih]

theorem digSpan_fst_digits (l : List Char) : ∀ c ∈ (digSpan l).1, c.isDigit := by
  induction l with
  | nil => intro c hc; simp [digSpan] at hc
  | cons c t ih =>
    intro x hx
    by_cases h : c.isDigit
    · simp only [digSpan, h, if_true] at hx
      rcases List.mem_cons.mp hx with rfl | hx
      · exact h
      · exact ih x hx
    · simp [digSpan, h] at hx

theorem digSpan_of_all_digits (l : List Char) (h : ∀ c ∈ l, c.isDigit) :
    digSpan l = (l, []) := by
  induction l with
  | nil => rfl
  | cons c t ih =>
    have hc : c.isDigit := h c (by simp)
    simp [digSpan, hc, ih fun x hx => h x (by simp [hx])]

theorem digSpan_append_stop (ds : List Char) (c : Char) (r : List Char)
    (hds : ∀ x ∈ ds, x.isDigit) (hc : ¬ c.isDigit) :
    digSpan (ds ++ c :: r) = (ds, c :: r) := by
  induction ds with
  | nil => simp [digSpan, hc]
  | cons d t ih =>
    have hd : d.isDigit := hds d (by simp)
    simp [digSpan, hd, ih fun x hx => hds x (by simp [hx])]

theorem digitsValAux_nil (a : Nat) : digitsValAux a [] = a := rfl

theorem digitsValAux_cons (a : Nat) (c : Char) (t : List Char) :
    digitsValAux a (c :: t) = digitsValAux (10 * a + digitVal c) t := rfl

theorem digitsVal_nil : digitsVal [] = 0 := rfl

theorem digitsVal_cons (c : Char) (t : List Char) :
    digitsVal (c :: t) = digitsValAux (digitVal c) t := by
  show digitsValAux 0 (c :: t) = _
  rw [digitsValAux_cons]
  norm_num

theorem digitsValAux_eq (l : List Char) (a : Nat) :
    digitsValAux a l = a * 10 ^ l.length + digitsVal l := by
  induction l generalizing a with
  | nil => rw [digitsValAux_nil, digitsVal_nil]; simp
  | cons c t ih =>
    rw [digitsValAux_cons, digitsVal_cons, ih (10 * a + digitVal c), ih (digitVal c),
      List.length_cons]
    ring

theorem digitsValAux_append (l1 l2 : List Char) (a : Nat) :
    digitsValAux a (l1 ++ l2) = digitsValAux (digitsValAux a l1) l2 := by
  induction l1 generalizing a with
  | nil => rfl
  | cons c t ih =>
    rw [List.cons_append, digitsValAux_cons, digitsValAux_cons]
    exact ih _

theorem digitsVal_append_singleton (l : List Char) (c : Char) :
    digitsVal (l ++ [c]) = 10 * digitsVal l + digitVal c := by
  show digitsValAux 0 (l ++ [c]) = _
  rw [digitsValAux_append]
  rfl

theorem digitVal_digitChar (n : Nat) (h : n < 10) : digitVal (digitChar n) = n := by
  interval_cases n <;> decide

theorem digitChar_isDigit (n : Nat) : (digitChar n).isDigit := by
  unfold digitChar
  split_ifs <;> decide

theorem natDigits_zero (n : Nat) : natDigits 0 n = [] := rfl

theorem natDigits_succ (f n : Nat) :
    natDigits (f + 1) n =
      if n < 10 then [digitChar n] else natDigits f (n / 10) ++ [digitChar (n % 10)] := rfl

theorem natDigits_digits (f n : Nat) : ∀ c ∈ natDigits f n, c.isDigit := by
  induction f generalizing n with
  | zero => intro c hc; rw [natDigits_zero] at hc; simp at hc
  | succ f ih =>
    intro c hc
    rw [natDigits_succ] at hc
    by_cases h : n < 10
    · rw [if_pos h] at hc
      simp at hc
      exact hc ▸ digitChar_isDigit _
    · rw [if_neg h] at hc
      rcases List.mem_append.mp hc with hc | hc
      · exact ih _ c hc
      · simp at hc
        exact hc ▸ digitChar_isDigit _

theorem natDigits_ne_nil (f n : Nat) : natDigits (f + 1) n ≠ [] := by
  rw [natDigits_succ]
  by_cases h : n < 10
  · rw [if_pos h]; simp
  · rw [if_neg h]; simp

theorem natDigits_val (f n : Nat) (h : n < 10 ^ f) :
    digitsVal (natDigits f n) = n := by
  induction f generalizing n with
  | zero =>
    simp only [pow_zero, Nat.lt_one_iff] at h
    rw [natDigits_zero, digitsVal_nil, h]
  | succ f ih =>
    rw [natDigits_succ]
    by_cases h10 : n < 10
    · rw [if_pos h10, digitsVal_cons, digitsValAux_nil, digitVal_digitChar n h10]
    · rw [if_neg h10, digitsVal_append_singleton]
      have hdiv : n / 10 < 10 ^ f := by
        rw [Nat.div_lt_iff_lt_mul (by norm_num)]
        calc n < 10 ^ (f + 1) := h
        _ = 10 ^ f * 10 := by ring
      rw [ih _ hdiv, digitVal_digitChar _ (Nat.mod_lt _ (by norm_num))]
      omega

theorem natToDigits_val (n : Nat) : digitsVal (natToDigits n) = n := by
  refine natDigits_val (n + 1) n ?_
  calc n < n + 1 := Nat.lt_succ_self n
  _ ≤ 10 ^ (n + 1) := le_of_lt (Nat.lt_pow_self (by norm_num) (n + 1))

theorem natToDigits_ne_nil (n : Nat) : natToDigits n ≠ [] := natDigits_ne_nil n n

theorem natToDigits_digits (n : Nat) : ∀ c ∈ natToDigits n, c.isDigit :=
  natDigits_digits (n + 1) n

theorem isDigit_not_special (c : Char) (h : c.isDigit) :
    c ≠ ',' ∧ c ≠ '.' ∧ c ≠ '-' ∧ c ≠ '+' ∧ c ≠ 'e' ∧ c ≠ 'E' := by
  refine ⟨?_, ?_, ?_, ?_, ?_, ?_⟩ <;> rintro rfl <;> exact absurd h (by decide)

theorem qAdd_eq (a b : ℚ) : qAdd a b = a + b := by
  unfold qAdd
  rw [Rat.mkRat_eq_div]
  push_cast
  conv_rhs => rw [← Rat.num_div_den a, ← Rat.num_div_den b]
  have ha : ((a.den : ℚ)) ≠ 0 := by positivity
  have hb : ((b.den : ℚ)) ≠ 0 := by positivity
  field_simp

theorem qMul_eq (a b : ℚ) : qMul a b = a * b := by
  unfold qMul
  rw [Rat.mkRat_eq_div]
  push_cast
  conv_rhs => rw [← Rat.num_div_den a, ← Rat.num_div_den b]
  have ha : ((a.den : ℚ)) ≠ 0 := by positivity
  have hb : ((b.den : ℚ)) ≠ 0 := by positivity
  field_simp

theorem qDiv_eq (a b : ℚ) : qDiv a b = a / b := by
  unfold qDiv
  rw [Rat.divInt_eq_div]
  by_cases hbn : b = 0
  · subst hbn; simp
  · push_cast
    conv_rhs => rw [← Rat.num_div_den a, ← Rat.num_div_den b]
    have ha : ((a.den : ℚ)) ≠ 0 := by positivity
    have hb : ((b.den : ℚ)) ≠ 0 := by positivity
    have hbn' : ((b.num : ℚ)) ≠ 0 := by simpa [Rat.num_eq_zero] using hbn
    field_simp

theorem qAbs_eq (a : ℚ) : qAbs a = |a| := by
  unfold qAbs
  by_cases h : a.num < 0
  · rw [if_pos h, abs_of_neg (Rat.num_neg.mp h)]
  · rw [if_neg h, abs_of_nonneg (Rat.num_nonneg.mp (le_of_not_lt h))]

theorem powTenQ_eq (k : Nat) : powTenQ k = (10 : ℚ) ^ k := by
  unfold powTenQ
  push_cast
  rfl

/-! ## Character-level facts about the replacements and the parser -/

theorem replAll_not_mem_comma (l : List Char) : ',' ∉ replAll ',' '.' l := by
  intro h
  rcases List.mem_map.mp h with ⟨c, _, hc⟩
  by_cases h' : c = ',' <;> simp [h'] at hc

theorem replAll_eq_self (a b : Char) (l : List Char) (h : a ∉ l) :
    replAll a b l = l := by
  induction l with
  | nil => rfl
  | cons c t ih =>
    have hca : c ≠ a := fun hc => h (hc ▸ List.mem_cons_self c t)
    simp only [replAll, List.map_cons, if_neg hca]
    have := ih fun hm => h (List.mem_cons_of_mem c hm)
    simpa [replAll] using this

theorem replFirst_eq_self (a b : Char) (l : List Char) (h : a ∉ l) :
    replFirst a b l = l := by
  induction l with
  | nil => rfl
  | cons c t ih =>
    have hca : c ≠ a := fun hc => h (hc ▸ List.mem_cons_self c t)
    simp only [replFirst, if_neg hca]
    rw [ih fun hm => h (List.mem_cons_of_mem c hm)]

theorem replAll_cons (a b c : Char) (t : List Char) :
    replAll a b (c :: t) = (if c = a then b else c) :: replAll a b t := rfl

theorem replFirst_cons (a b c : Char) (t : List Char) :
    replFirst a b (c :: t) = if c = a then b :: t else c :: replFirst a b t := rfl

theorem replFirst_of_count_one (l : List Char) (h : l.count ',' = 1) :
    replFirst ',' '.' l = replAll ',' '.' l := by
  induction l with
  | nil => rfl
  | cons c t ih =>
    simp only [List.count_cons, beq_iff_eq] at h
    by_cases hc : c = ','
    · subst hc
      rw [if_pos rfl] at h
      have ht : ',' ∉ t := by
        rw [← List.count_eq_zero]
        omega
      rw [replFirst_cons, replAll_cons, if_pos rfl, if_pos rfl, replAll_eq_self ',' '.' t ht]
    · rw [if_neg hc] at h
      rw [replFirst_cons, replAll_cons, if_neg hc, if_neg hc, ih (by omega)]

theorem mem_replFirst_of_count_ge_two (l : List Char) (h : 2 ≤ l.count ',') :
    ',' ∈ replFirst ',' '.' l := by
  induction l with
  | nil => simp at h
  | cons c t ih =>
    simp only [List.count_cons, beq_iff_eq] at h
    by_cases hc : c = ','
    · subst hc
      rw [if_pos rfl] at h
      have ht : ',' ∈ t := by
        rw [← List.count_pos_iff]
        omega
      rw [replFirst_cons, if_pos rfl]
      exact List.mem_cons_of_mem _ ht
    · rw [if_neg hc] at h
      rw [replFirst_cons, if_neg hc]
      exact List.mem_cons_of_mem c (ih (by omega))

theorem count_dot_replAll (l : List Char) :
    (replAll ',' '.' l).count '.' = l.count '.' + l.count ',' := by
  induction l with
  | nil => rfl
  | cons c t ih =>
    rw [replAll_cons]
    simp only [List.count_cons, beq_iff_eq]
    rw [ih]
    by_cases hc : c = ','
    · subst hc
      simp
      omega
    · by_cases hd : c = '.'
      · subst hd
        simp
        omega
      · simp [hc, hd]

theorem filter_ne_comma_eq_self (l : List Char) (h : ',' ∉ l) :
    (l.filter fun c => !(c = ',')) = l := by
  rw [List.filter_eq_self]
  intro c hc
  have : c ≠ ',' := fun hc' => h (hc' ▸ hc)
  simp [this]

theorem digits_count_comma_dot (ds : List Char) (h : ∀ c ∈ ds, c.isDigit) :
    ds.count ',' = 0 ∧ ds.count '.' = 0 := by
  constructor <;> rw [List.count_eq_zero] <;> intro hm
  · exact absurd (h ',' hm) (by decide)
  · exact absurd (h '.' hm) (by decide)

theorem signSplitQ_snd (cs : List Char) :
    cs = (signSplitQ cs).2 ∨ cs = '-' :: (signSplitQ cs).2 ∨
      cs = '+' :: (signSplitQ cs).2 := by
  cases cs with
  | nil => left; rfl
  | cons c r =>
    by_cases h1 : c = '-'
    · subst h1; right; left; simp [signSplitQ]
    · by_cases h2 : c = '+'
      · subst h2; right; right; simp [signSplitQ]
      · left; simp [signSplitQ, h1, h2]

theorem signSplitN_snd (t : List Char) :
    t = (signSplitN t).2 ∨ t = '-' :: (signSplitN t).2 ∨
      t = '+' :: (signSplitN t).2 := by
  cases t with
  | nil => left; rfl
  | cons c r =>
    by_cases h1 : c = '-'
    · subst h1; right; left; simp [signSplitN]
    · by_cases h2 : c = '+'
      · subst h2; right; right; simp [signSplitN]
      · left; simp [signSplitN, h1, h2]

theorem fracSplit_cons_dot (t : List Char) : fracSplit ('.' :: t) = digSpan t := by
  simp [fracSplit]

theorem fracSplit_cons_other (c : Char) (t : List Char) (h : c ≠ '.') :
    fracSplit (c :: t) = ([], c :: t) := by
  simp [fracSplit, h]

theorem fracSplit_digits (r : List Char) : ∀ c ∈ (fracSplit r).1, c.isDigit := by
  cases r with
  | nil => intro c hc; simp [fracSplit] at hc
  | cons c t =>
    by_cases h : c = '.'
    · subst h
      intro x hx
      rw [fracSplit_cons_dot] at hx
      exact digSpan_fst_digits t x hx
    · intro x hx
      rw [fracSplit_cons_other c t h] at hx
      simp at hx

theorem fracSplit_shape (r : List Char) :
    r = (fracSplit r).1 ++ (fracSplit r).2 ∨
      r = '.' :: ((fracSplit r).1 ++ (fracSplit r).2) := by
  cases r with
  | nil => left; rfl
  | cons c t =>
    by_cases h : c = '.'
    · subst h
      right
      rw [fracSplit_cons_dot, digSpan_append]
    · left
      rw [fracSplit_cons_other c t h]
      rfl

theorem parseExpTail_some_chars (sg m : ℚ) (t : List Char) (q : ℚ)
    (h : parseExpTail sg m t = some q) :
    ∀ c ∈ t, c.isDigit ∨ c = '-' ∨ c = '+' := by
  unfold parseExpTail at h
  by_cases hcond : (digSpan (signSplitN t).2).1 = [] ∨ (digSpan (signSplitN t).2).2 ≠ []
  · rw [if_pos hcond] at h
    exact absurd h (by simp)
  · push_neg at hcond
    obtain ⟨hne, hr2⟩ := hcond
    have hr : (signSplitN t).2 = (digSpan (signSplitN t).2).1 := by
      conv_lhs => rw [← digSpan_append (signSplitN t).2]
      rw [hr2, List.append_nil]
    have hdsdig : ∀ c ∈ (signSplitN t).2, c.isDigit := by
      rw [hr]
      exact digSpan_fst_digits _
    intro c hc
    rcases signSplitN_snd t with ht | ht | ht
    · exact Or.inl (hdsdig c (ht ▸ hc))
    · rw [ht] at hc
      rcases List.mem_cons.mp hc with rfl | hc
      · exact Or.inr (Or.inl rfl)
      · exact Or.inl (hdsdig c hc)
    · rw [ht] at hc
      rcases List.mem_cons.mp hc with rfl | hc
      · exact Or.inr (Or.inr rfl)
      · exact Or.inl (hdsdig c hc)

theorem pyParseFloat_some_counts (cs : List Char) (q : ℚ)
    (h : pyParseFloat cs = some q) : cs.count ',' = 0 ∧ cs.count '.' ≤ 1 := by
  unfold pyParseFloat pyParseMant at h
  by_cases hcond : (digSpan (signSplitQ cs).2).1 = [] ∧ (fracSplit (digSpan (signSplitQ cs).2).2).1 = []
  · rw [if_pos hcond] at h
    exact absurd h (by simp)
  · rw [if_neg hcond] at h
    have hip : ∀ c ∈ (digSpan (signSplitQ cs).2).1, c.isDigit := digSpan_fst_digits _
    have hfp : ∀ c ∈ (fracSplit (digSpan (signSplitQ cs).2).2).1, c.isDigit :=
      fracSplit_digits _
    have hipc := digits_count_comma_dot _ hip
    have hfpc := digits_count_comma_dot _ hfp
    -- the residue after the mantissa is empty or a well-formed exponent tail
    have hr3 : (fracSplit (digSpan (signSplitQ cs).2).2).2.count ',' = 0 ∧
        (fracSplit (digSpan (signSplitQ cs).2).2).2.count '.' = 0 := by
      rcases hr : (fracSplit (digSpan (signSplitQ cs).2).2).2 with _ | ⟨c, t⟩
      · simp
      · rw [hr] at h
        simp only at h
        by_cases he : c = 'e' ∨ c = 'E'
        · rw [if_pos he] at h
          have := parseExpTail_some_chars _ _ _ _ h
          have ht : t.count ',' = 0 ∧ t.count '.' = 0 := by
            constructor <;> rw [List.count_eq_zero] <;> intro hm
            · rcases this ',' hm with hd | hd | hd
              · exact absurd hd (by decide)
              · exact absurd hd (by decide)
              · exact absurd hd (by decide)
            · rcases this '.' hm with hd | hd | hd
              · exact absurd hd (by decide)
              · exact absurd hd (by decide)
              · exact absurd hd (by decide)
          constructor <;> rw [List.count_cons] <;>
            rcases he with rfl | rfl <;> simp [ht.1, ht.2]
        · rw [if_neg he] at h
          exact absurd h (by simp)
    -- reassemble the character counts of `cs` from the pieces
    have hrest2 : (digSpan (signSplitQ cs).2).2.count ',' = 0 ∧
        (digSpan (signSplitQ cs).2).2.count '.' ≤ 1 := by
      rcases fracSplit_shape (digSpan (signSplitQ cs).2).2 with hs | hs
      · constructor
        · rw [hs, List.count_append]
          omega
        · rw [hs, List.count_append]
          omega
      · constructor
        · rw [hs, List.count_cons, List.count_append]
          simp only [beq_iff_eq]
          rw [if_neg (by decide)]
          omega
        · rw [hs, List.count_cons, List.count_append]
          simp only [beq_iff_eq]
          simp
          omega
    have hrest : (signSplitQ cs).2.count ',' = 0 ∧ (signSplitQ cs).2.count '.' ≤ 1 := by
      constructor
      · conv_lhs => rw [← digSpan_append (signSplitQ cs).2]
        rw [List.count_append]
        omega
      · conv_lhs => rw [← digSpan_append (signSplitQ cs).2]
        rw [List.count_append]
        omega
    rcases signSplitQ_snd cs with hc | hc | hc
    · rw [hc]
      exact hrest
    · rw [hc]
      constructor
      · rw [List.count_cons]
        simp only [beq_iff_eq]
        rw [if_neg (by decide)]
        omega
      · rw [List.count_cons]
        simp only [beq_iff_eq]
        rw [if_neg (by decide)]
        omega
    · rw [hc]
      constructor
      · rw [List.count_cons]
        simp only [beq_iff_eq]
        rw [if_neg (by decide)]
        omega
      · rw [List.count_cons]
        simp only [beq_iff_eq]
        rw [if_neg (by decide)]
        omega

theorem pyParseFloat_none_of_comma (cs : List Char) (h : ',' ∈ cs) :
    pyParseFloat cs = none := by
  rcases hp : pyParseFloat cs with _ | q
  · rfl
  · have := (pyParseFloat_some_counts cs q hp).1
    rw [List.count_eq_zero] at this
    exact absurd h this

theorem pyParseFloat_none_of_two_dots (cs : List Char) (h : 2 ≤ cs.count '.') :
    pyParseFloat cs = none := by
  rcases hp : pyParseFloat cs with _ | q
  · rfl
  · have := (pyParseFloat_some_counts cs q hp).2
    omega

theorem flt_eq_parse_of_no_comma (l : List Char) (h : ',' ∉ l) :
    flt l = match pyParseFloat l with | some q => q | none => 0 := by
  unfold flt
  rw [filter_ne_comma_eq_self l h]

theorem convert_german_number_eq_specified (s : String) :
    convert_german_number s = convert_german_number_as_specified s := by
  unfold convert_german_number convert_german_number_as_specified
  by_cases hnil : s.toList = []
  · rw [if_pos hnil, if_pos hnil]
  · rw [if_neg hnil, if_neg hnil]
    have hnc : ',' ∉ replAll ',' '.' s.toList := replAll_not_mem_comma _
    rw [flt_eq_parse_of_no_comma _ hnc]
    rcases hcnt : s.toList.count ',' with _ | n
    · have hmem : ',' ∉ s.toList := (List.count_eq_zero).mp hcnt
      rw [replAll_eq_self ',' '.' _ hmem, replFirst_eq_self ',' '.' _ hmem]
    · rcases n with _ | n
      · rw [replFirst_of_count_one _ hcnt]
      · have h2 : 2 ≤ s.toList.count ',' := by omega
        rw [pyParseFloat_none_of_two_dots (replAll ',' '.' s.toList)
          (by rw [count_dot_replAll]; omega)]
        rw [pyParseFloat_none_of_comma (replFirst ',' '.' s.toList)
          (mem_replFirst_of_count_ge_two _ h2)]

/-! ## Round trip of the renderer through the normalizer -/

theorem mantVal_eq (ip fp : List Char) :
    mantVal ip fp = (digitsVal ip : ℚ) + (digitsVal fp : ℚ) / (10 : ℚ) ^ fp.length := by
  unfold mantVal
  rw [qAdd_eq, qDiv_eq, powTenQ_eq]

theorem digitsVal_replicate_zero_append (z : Nat) (ds : List Char) :
    digitsVal (List.replicate z '0' ++ ds) = digitsVal ds := by
  induction z with
  | zero => rfl
  | succ z ih =>
    rw [List.replicate_succ, List.cons_append, digitsVal_cons]
    show digitsValAux (digitVal '0') _ = _
    have : digitVal '0' = 0 := by decide
    rw [this]
    exact ih

theorem natDigits_length_le (f n j : Nat) (hj : 1 ≤ j) (h : n < 10 ^ j) :
    (natDigits f n).length ≤ j := by
  induction f generalizing n j with
  | zero => simp [natDigits_zero]
  | succ f ih =>
    rw [natDigits_succ]
    by_cases h10 : n < 10
    · rw [if_pos h10]
      simpa using hj
    · rw [if_neg h10]
      rw [List.length_append, List.length_cons, List.length_nil]
      obtain ⟨j', rfl⟩ : ∃ j', j = j' + 1 := ⟨j - 1, by omega⟩
      have hj' : 1 ≤ j' := by
        by_contra hlt
        have : j' = 0 := by omega
        subst this
        rw [pow_one] at h
        omega
      have hdiv : n / 10 < 10 ^ j' := by
        rw [Nat.div_lt_iff_lt_mul (by norm_num)]
        calc n < 10 ^ (j' + 1) := h
        _ = 10 ^ j' * 10 := by ring
      have := ih (n / 10) j' hj' hdiv
      omega

theorem pyParseMant_render (sg : ℚ) (I F : List Char)
    (hI : ∀ c ∈ I, c.isDigit) (hF : ∀ c ∈ F, c.isDigit) (hIne : I ≠ []) :
    pyParseMant sg (digSpan (I ++ '.' :: F)).1 (fracSplit (digSpan (I ++ '.' :: F)).2) =
      some (qMul sg (mantVal I F)) := by
  rw [digSpan_append_stop I '.' F hI (by decide)]
  show pyParseMant sg I (fracSplit ('.' :: F)) = _
  rw [fracSplit_cons_dot, digSpan_of_all_digits F hF]
  unfold pyParseMant
  rw [if_neg (by simp [hIne])]

theorem pyParseFloat_render_pos (I F : List Char)
    (hI : ∀ c ∈ I, c.isDigit) (hF : ∀ c ∈ F, c.isDigit) (hIne : I ≠ []) :
    pyParseFloat (I ++ '.' :: F) = some (qMul 1 (mantVal I F)) := by
  unfold pyParseFloat
  have hsign : signSplitQ (I ++ '.' :: F) = (1, I ++ '.' :: F) := by
    rcases I with _ | ⟨c, t⟩
    · exact absurd rfl hIne
    · have hc : c.isDigit := hI c (by simp)
      obtain ⟨_, _, h3, h4, _, _⟩ := isDigit_not_special c hc
      show signSplitQ (c :: (t ++ '.' :: F)) = _
      simp [signSplitQ, h3, h4]
  rw [hsign]
  exact pyParseMant_render 1 I F hI hF hIne

theorem pyParseFloat_render_neg (I F : List Char)
    (hI : ∀ c ∈ I, c.isDigit) (hF : ∀ c ∈ F, c.isDigit) (hIne : I ≠ []) :
    pyParseFloat ('-' :: (I ++ '.' :: F)) = some (qMul (-1) (mantVal I F)) := by
  unfold pyParseFloat
  have hsign : signSplitQ ('-' :: (I ++ '.' :: F)) = (-1, I ++ '.' :: F) := by
    simp [signSplitQ]
  rw [hsign]
  exact pyParseMant_render (-1) I F hI hF hIne

theorem den_dvd_pow_ten (q : ℚ) (hq : hasDecimalDen q) :
    (q.den : Nat) ∣ 10 ^ max (multP 2 q.den) (multP 5 q.den) := by
  have key : ∀ a b : Nat, (2 ^ a * 5 ^ b : Nat) ∣ 10 ^ max a b := by
    intro a b
    have h10 : (10 : Nat) ^ max a b = 2 ^ max a b * 5 ^ max a b := by
      rw [← Nat.mul_pow]
    rw [h10]
    exact Nat.mul_dvd_mul (Nat.pow_dvd_pow 2 (le_max_left _ _))
      (Nat.pow_dvd_pow 5 (le_max_right _ _))
  have hq' : q.den = 2 ^ multP 2 q.den * 5 ^ multP 5 q.den := hq
  conv_lhs => rw [hq']
  exact key _ _

theorem pyStr_parse (q : ℚ) (hq : hasDecimalDen q) :
    pyParseFloat (pyStr q) = some q := by
  set k := max (multP 2 q.den) (multP 5 q.den) with hk
  set m := q.num.natAbs * 10 ^ k / q.den with hmdef
  have hden0 : (q.den : Nat) ≠ 0 := q.den_nz
  have hdvd : (q.den : Nat) ∣ 10 ^ k := den_dvd_pow_ten q hq
  have hm : m * q.den = q.num.natAbs * 10 ^ k :=
    Nat.div_mul_cancel (hdvd.mul_left _)
  set F : List Char :=
    (if k = 0 then ['0']
     else List.replicate (k - (natToDigits (m % 10 ^ k)).length) '0' ++
       natToDigits (m % 10 ^ k)) with hF
  set I : List Char := natToDigits (m / 10 ^ k) with hI
  have hpy : pyStr q = (if q.num < 0 then ['-'] else []) ++ I ++ '.' :: F := rfl
  have hIdig : ∀ c ∈ I, c.isDigit := natToDigits_digits _
  have hIne : I ≠ [] := natToDigits_ne_nil _
  have hFdig : ∀ c ∈ F, c.isDigit := by
    rw [hF]
    by_cases h0 : k = 0
    · rw [if_pos h0]
      intro c hc
      simp at hc
      subst hc
      decide
    · rw [if_neg h0]
      intro c hc
      rcases List.mem_append.mp hc with hc | hc
      · have := List.eq_of_mem_replicate hc
        subst this
        decide
      · exact natToDigits_digits _ c hc
  have hFval : (digitsVal F : ℚ) / (10 : ℚ) ^ F.length =
      ((m % 10 ^ k : Nat) : ℚ) / (10 : ℚ) ^ k := by
    rw [hF]
    by_cases h0 : k = 0
    · rw [if_pos h0, h0]
      have h1 : digitsVal ['0'] = 0 := by decide
      have h2 : m % 10 ^ 0 = 0 := by simp [Nat.mod_one]
      rw [h1, h2]
      norm_num
    · rw [if_neg h0]
      have hlen : (natToDigits (m % 10 ^ k)).length ≤ k :=
        natDigits_length_le _ _ k (by omega) (Nat.mod_lt _ (by positivity))
      rw [digitsVal_replicate_zero_append, natToDigits_val, List.length_append,
        List.length_replicate]
      have hcnt : k - (natToDigits (m % 10 ^ k)).length +
          (natToDigits (m % 10 ^ k)).length = k := by omega
      rw [hcnt]
  have hval : qMul (if q.num < 0 then (-1 : ℚ) else 1) (mantVal I F) = q := by
    rw [qMul_eq, mantVal_eq, hI, natToDigits_val, hFval]
    have hpow0 : ((10 : ℚ)) ^ k ≠ 0 := by positivity
    have hdenQ : ((q.den : ℚ)) ≠ 0 := by exact_mod_cast hden0
    have hsum : ((m / 10 ^ k : Nat) : ℚ) + ((m % 10 ^ k : Nat) : ℚ) / (10 : ℚ) ^ k =
        (m : ℚ) / (10 : ℚ) ^ k := by
      have hdm := congrArg (fun x : Nat => (x : ℚ)) (Nat.div_add_mod m (10 ^ k))
      push_cast at hdm
      field_simp
      linarith [hdm]
    rw [hsum]
    have hfrac : (m : ℚ) / (10 : ℚ) ^ k = ((q.num.natAbs : ℚ)) / ((q.den : ℚ)) := by
      have hm' := congrArg (fun x : Nat => (x : ℚ)) hm
      push_cast at hm'
      rw [div_eq_div_iff hpow0 hdenQ]
      linarith [hm']
    rw [hfrac]
    have hnum : (if q.num < 0 then (-1 : ℚ) else 1) * ((q.num.natAbs : ℚ)) = ((q.num : ℚ)) := by
      by_cases hneg : q.num < 0
      · rw [if_pos hneg]
        have h1 : ((q.num.natAbs : ℚ)) = -((q.num : ℚ)) := by
          rw [Int.cast_natAbs, Int.cast_abs]
          exact abs_of_neg (by exact_mod_cast hneg)
        rw [h1]
        ring
      · rw [if_neg hneg]
        have h1 : ((q.num.natAbs : ℚ)) = ((q.num : ℚ)) := by
          rw [Int.cast_natAbs, Int.cast_abs]
          exact abs_of_nonneg (by exact_mod_cast le_of_not_lt hneg)
        rw [h1]
        ring
    calc (if q.num < 0 then (-1 : ℚ) else 1) * ((q.num.natAbs : ℚ) / (q.den : ℚ))
        = ((if q.num < 0 then (-1 : ℚ) else 1) * (q.num.natAbs : ℚ)) / (q.den : ℚ) := by
          ring
      _ = ((q.num : ℚ)) / ((q.den : ℚ)) := by rw [hnum]
      _ = q := Rat.num_div_den q
  rw [hpy]
  by_cases hneg : q.num < 0
  · rw [if_pos hneg]
    show pyParseFloat ('-' :: (I ++ '.' :: F)) = some q
    rw [pyParseFloat_render_neg I F hIdig hFdig hIne, ← hval, if_pos hneg]
  · rw [if_neg hneg, List.nil_append,
      pyParseFloat_render_pos I F hIdig hFdig hIne, ← hval, if_neg hneg]

theorem pyStr_chars (q : ℚ) : ∀ c ∈ pyStr q, c.isDigit ∨ c = '-' ∨ c = '.' := by
  set k := max (multP 2 q.den) (multP 5 q.den) with hk
  set m := q.num.natAbs * 10 ^ k / q.den with hmdef
  set F : List Char :=
    (if k = 0 then ['0']
     else List.replicate (k - (natToDigits (m % 10 ^ k)).length) '0' ++
       natToDigits (m % 10 ^ k)) with hF
  set I : List Char := natToDigits (m / 10 ^ k) with hI
  have hpy : pyStr q = (if q.num < 0 then ['-'] else []) ++ I ++ '.' :: F := rfl
  intro c hc
  rw [hpy] at hc
  simp only [List.mem_append, List.mem_cons] at hc
  rcases hc with (h1 | h2) | h3
  · by_cases hneg : q.num < 0
    · rw [if_pos hneg] at h1
      simp at h1
      subst h1
      right; left; rfl
    · rw [if_neg hneg] at h1
      simp at h1
  · exact Or.inl (natToDigits_digits _ c h2)
  · rcases h3 with rfl | h4
    · right; right; rfl
    · rw [hF] at h4
      by_cases h0 : k = 0
      · rw [if_pos h0] at h4
        simp at h4
        subst h4
        left; decide
      · rw [if_neg h0] at h4
        rcases List.mem_append.mp h4 with h5 | h5
        · have := List.eq_of_mem_replicate h5
          subst this
          left; decide
        · exact Or.inl (natToDigits_digits _ c h5)

theorem pyStr_has_dot (q : ℚ) : '.' ∈ pyStr q := by
  set k := max (multP 2 q.den) (multP 5 q.den) with hk
  set m := q.num.natAbs * 10 ^ k / q.den with hmdef
  set F : List Char :=
    (if k = 0 then ['0']
     else List.replicate (k - (natToDigits (m % 10 ^ k)).length) '0' ++
       natToDigits (m % 10 ^ k)) with hF
  set I : List Char := natToDigits (m / 10 ^ k) with hI
  have hpy : pyStr q = (if q.num < 0 then ['-'] else []) ++ I ++ '.' :: F := rfl
  rw [hpy]
  simp

theorem pyStr_no_comma (q : ℚ) : ',' ∉ pyStr q := by
  intro h
  rcases pyStr_chars q ',' h with hd | hd | hd
  · exact absurd hd (by decide)
  · exact absurd hd (by decide)
  · exact absurd hd (by decide)

theorem replAll_comma_dot_cancel (l : List Char) (h : ',' ∉ l) :
    replAll ',' '.' (replAll '.' ',' l) = l := by
  induction l with
  | nil => rfl
  | cons c t ih =>
    have hct : ',' ∉ t := fun hm => h (List.mem_cons_of_mem c hm)
    have hcc : c ≠ ',' := fun hc => h (hc ▸ List.mem_cons_self c t)
    rw [replAll_cons]
    by_cases hd : c = '.'
    · subst hd
      rw [if_pos rfl, replAll_cons, if_pos rfl, ih hct]
    · rw [if_neg hd, replAll_cons, if_neg hcc, ih hct]

theorem convert_german_number_denormalize (q : ℚ) (hq : hasDecimalDen q) :
    convert_german_number (denormalize q) = q := by
  have hnc : ',' ∉ pyStr q := pyStr_no_comma q
  have htl : (denormalize q).toList = replAll '.' ',' (pyStr q) := rfl
  unfold convert_german_number
  rw [htl]
  have hne : replAll '.' ',' (pyStr q) ≠ [] := by
    intro hnil
    have hdot : '.' ∈ pyStr q := pyStr_has_dot q
    have : pyStr q = [] := by
      have := congrArg List.length hnil
      rw [show replAll '.' ',' (pyStr q) = List.map (fun c => if c = '.' then ',' else c)
        (pyStr q) from rfl, List.length_map] at this
      exact List.eq_nil_of_length_eq_zero this
    rw [this] at hdot
    simp at hdot
  rw [if_neg hne, replAll_comma_dot_cancel (pyStr q) hnc,
    flt_eq_parse_of_no_comma _ hnc, pyStr_parse q hq]

/-! ## Basic facts about the matcher and the reconciliation pass -/

theorem flt_replAll_eq_cgn (s : String) :
    flt (replAll ',' '.' s.toList) = convert_german_number s := by
  unfold convert_german_number
  by_cases h : s.toList = []
  · rw [if_pos h, h]
    decide
  · rw [if_neg h]

theorem keyMatch_eq_true_iff (a b : Row) :
    keyMatch a b = true ↔
      (a.CustomCustomerNr = b.CustomCustomerNr ∧ a.ReferenceNumber = b.ReferenceNumber ∧
        a.ArticleNumber_Mandant = b.ArticleNumber_Mandant) := by
  simp [keyMatch, and_assoc]

theorem keyMatch_symm (a b : Row) (h : keyMatch a b = true) : keyMatch b a = true := by
  rw [keyMatch_eq_true_iff] at h ⊢
  exact ⟨h.1.symm, h.2.1.symm, h.2.2.symm⟩

theorem tryAdjacentPos_neg_index (r : Row) (all_rows : List Row) (j : Int) (hj : j < 0) :
    tryAdjacentPos r all_rows j = none := by
  unfold tryAdjacentPos
  rw [if_neg (by omega)]

theorem tryAdjacentNeg_neg_index (r : Row) (all_rows : List Row) (j : Int) (hj : j < 0) :
    tryAdjacentNeg r all_rows j = none := by
  unfold tryAdjacentNeg
  rw [if_neg (by omega)]

theorem tryAdjacentPos_natCast (r : Row) (all_rows : List Row) (n : Nat) :
    tryAdjacentPos r all_rows (n : Int) =
      if specQualifies true r all_rows n then (all_rows.get? n).map fun cr => (cr, n)
      else none := by
  unfold tryAdjacentPos specQualifies
  rw [if_pos (by omega : (0 : ℤ) ≤ (n : ℤ)), Int.toNat_natCast]
  rcases hg : all_rows.get? n with _ | cr
  · rfl
  · by_cases hk : keyMatch r cr = true
    · by_cases hs : 0 < convert_german_number cr.Amount
      · simp [hg, hk, hs]
      · simp [hg, hk, hs]
    · simp [hg, hk]

theorem tryAdjacentNeg_natCast (r : Row) (all_rows : List Row) (n : Nat) :
    tryAdjacentNeg r all_rows (n : Int) =
      if specQualifies false r all_rows n then (all_rows.get? n).map fun cr => (cr, n)
      else none := by
  unfold tryAdjacentNeg specQualifies
  rw [if_pos (by omega : (0 : ℤ) ≤ (n : ℤ)), Int.toNat_natCast]
  rcases hg : all_rows.get? n with _ | cr
  · rfl
  · by_cases hk : keyMatch r cr = true
    · by_cases hs : convert_german_number cr.Amount < 0
      · simp [hg, hk, hs]
      · simp [hg, hk, hs]
    · simp [hg, hk]

theorem tryAdjacentPos_some (r : Row) (all_rows : List Row) (j : Int) (cr : Row) (n : Nat)
    (h : tryAdjacentPos r all_rows j = some (cr, n)) :
    all_rows.get? n = some cr ∧ keyMatch r cr = true ∧ j = (n : Int) ∧
      0 < convert_german_number cr.Amount := by
  by_cases h0 : 0 ≤ j
  · have hj : j = ((j.toNat : Nat) : Int) := (Int.toNat_of_nonneg h0).symm
    rw [hj, tryAdjacentPos_natCast] at h
    by_cases hq : specQualifies true r all_rows j.toNat
    · rw [if_pos hq] at h
      rcases hg : all_rows.get? j.toNat with _ | row2
      · rw [hg] at h
        exact absurd h (by simp)
      · rw [hg] at h
        simp only [Option.map_some', Option.some.injEq, Prod.mk.injEq] at h
        obtain ⟨rfl, rfl⟩ := h
        unfold specQualifies at hq
        rw [hg] at hq
        simp only [if_true, Bool.and_eq_true, decide_eq_true_eq] at hq
        exact ⟨hg, hq.1, hj, hq.2⟩
    · rw [if_neg hq] at h
      exact absurd h (by simp)
  · rw [tryAdjacentPos_neg_index r all_rows j (by omega)] at h
    exact absurd h (by simp)

theorem tryAdjacentNeg_some (r : Row) (all_rows : List Row) (j : Int) (cr : Row) (n : Nat)
    (h : tryAdjacentNeg r all_rows j = some (cr, n)) :
    all_rows.get? n = some cr ∧ keyMatch r cr = true ∧ j = (n : Int) ∧
      convert_german_number cr.Amount < 0 := by
  by_cases h0 : 0 ≤ j
  · have hj : j = ((j.toNat : Nat) : Int) := (Int.toNat_of_nonneg h0).symm
    rw [hj, tryAdjacentNeg_natCast] at h
    by_cases hq : specQualifies false r all_rows j.toNat
    · rw [if_pos hq] at h
      rcases hg : all_rows.get? j.toNat with _ | row2
      · rw [hg] at h
        exact absurd h (by simp)
      · rw [hg] at h
        simp only [Option.map_some', Option.some.injEq, Prod.mk.injEq] at h
        obtain ⟨rfl, rfl⟩ := h
        unfold specQualifies at hq
        rw [hg] at hq
        simp at hq
        exact ⟨hg, hq.1, hj, hq.2⟩
    · rw [if_neg hq] at h
      exact absurd h (by simp)
  · rw [tryAdjacentNeg_neg_index r all_rows j (by omega)] at h
    exact absurd h (by simp)

theorem specQualifies_get (w : Bool) (r : Row) (all_rows : List Row) (j : Nat)
    (h : specQualifies w r all_rows j = true) : ∃ cr, all_rows.get? j = some cr := by
  unfold specQualifies at h
  rcases hg : all_rows.get? j with _ | cr
  · rw [hg] at h
    simp at h
  · exact ⟨cr, rfl⟩

theorem scanFrom_nil (r : Row) (i j : Nat) : scanFrom r i j [] = none := rfl

theorem scanFrom_cons (r : Row) (i j : Nat) (c : Row) (rest : List Row) :
    scanFrom r i j (c :: rest) =
      if j ≠ i ∧ keyMatch r c = true ∧ 0 < convert_german_number c.Amount
      then some (c, j) else scanFrom r i (j + 1) rest := rfl

theorem firstQualifying_zero (Q : Nat → Bool) (j : Nat) : firstQualifying Q j 0 = none := rfl

theorem firstQualifying_succ (Q : Nat → Bool) (j cnt : Nat) :
    firstQualifying Q j (cnt + 1) =
      if Q j then some j else firstQualifying Q (j + 1) cnt := rfl

theorem scanFrom_eq_first (r : Row) (i : Nat) (all_rows : List Row) (l : List Row) (j : Nat)
    (hl : all_rows.drop j = l) :
    scanFrom r i j l =
      match firstQualifying (fun n => !(n == i) && specQualifies true r all_rows n) j
          l.length with
      | some n => (all_rows.get? n).map fun cr => (cr, n)
      | none => none := by
  induction l generalizing j with
  | nil => rfl
  | cons c rest ih =>
    have hg : all_rows.get? j = some c := by
      rw [List.get?_eq_getElem?]
      have h0 := List.getElem?_drop all_rows j 0
      rw [hl] at h0
      simpa using h0.symm
    have hdrop : all_rows.drop (j + 1) = rest := by
      have h1 : all_rows.drop (j + 1) = (all_rows.drop j).drop 1 := by
        rw [List.drop_drop, Nat.add_comm]
      rw [h1, hl]
      rfl
    have hiff : ((fun n => !(n == i) && specQualifies true r all_rows n) j = true) ↔
        (j ≠ i ∧ keyMatch r c = true ∧ 0 < convert_german_number c.Amount) := by
      show (!(j == i) && specQualifies true r all_rows j) = true ↔ _
      unfold specQualifies
      rw [hg]
      simp
    rw [List.length_cons, firstQualifying_succ, scanFrom_cons]
    by_cases hq : (j ≠ i ∧ keyMatch r c = true ∧ 0 < convert_german_number c.Amount)
    · rw [if_pos hq, if_pos (hiff.mpr hq)]
      show some (c, j) = (all_rows.get? j).map fun cr => (cr, j)
      rw [hg]
      rfl
    · rw [if_neg hq, if_neg (show ¬((fun n => !(n == i) && specQualifies true r all_rows n) j
          = true) from fun hb => hq (hiff.mp hb))]
      exact ih (j + 1) hdrop

theorem range'_cons (j cnt : Nat) : List.range' j (cnt + 1) = j :: List.range' (j + 1) cnt := by
  rw [List.range'_succ]

theorem rangeFilter_head_eq_first (Q : Nat → Bool) (cnt : Nat) : ∀ j,
    ((List.range' j cnt).filter Q).head? = firstQualifying Q j cnt := by
  induction cnt with
  | zero => intro j; rfl
  | succ cnt ih =>
    intro j
    rw [range'_cons, List.filter_cons, firstQualifying_succ]
    by_cases hq : Q j
    · rw [if_pos hq, if_pos hq]
      rfl
    · rw [if_neg hq, if_neg hq]
      exact ih (j + 1)

theorem find_corresponding_row_eq_spec (r : Row) (all_rows : List Row) (i : Nat) :
    find_corresponding_row r all_rows i = find_match_as_specified true true r all_rows i := by
  unfold find_corresponding_row find_match_as_specified
  have hscan : scanFrom r i 0 all_rows =
      match ((List.range all_rows.length).filter fun j =>
          !(j == i) && specQualifies true r all_rows j).head? with
      | some j => (all_rows.get? j).map fun cr => (cr, j)
      | none => none := by
    rw [List.range_eq_range', rangeFilter_head_eq_first]
    exact scanFrom_eq_first r i all_rows all_rows 0 (List.drop_zero all_rows)
  rcases i with _ | k
  · rw [show ((0 : Nat) : Int) - 1 = (-1 : Int) by norm_num,
      tryAdjacentPos_neg_index r all_rows (-1) (by norm_num),
      show ((0 : Nat) : Int) + 1 = ((1 : Nat) : Int) by norm_num,
      tryAdjacentPos_natCast,
      show ((if (0 : Nat) = 0 then ([] : List Nat) else [0 - 1]) ++ [0 + 1]) = [1] by norm_num,
      List.filter_cons, List.filter_nil]
    by_cases hq : specQualifies true r all_rows 1 = true
    · obtain ⟨cr, hg⟩ := specQualifies_get _ _ _ _ hq
      rw [if_pos hq, if_pos hq]
      simp only [List.get?_eq_getElem?] at hg
      simp [hg]
    · rw [if_neg hq, if_neg hq]
      rw [hscan]
      rfl
  · rw [show ((k + 1 : Nat) : Int) - 1 = ((k : Nat) : Int) by push_cast; ring,
      show ((k + 1 : Nat) : Int) + 1 = ((k + 2 : Nat) : Int) by push_cast; ring,
      tryAdjacentPos_natCast, tryAdjacentPos_natCast,
      show ((if (k + 1 : Nat) = 0 then ([] : List Nat) else [k + 1 - 1]) ++ [k + 1 + 1]) =
        [k, k + 2] by norm_num,
      List.filter_cons, List.filter_cons, List.filter_nil]
    by_cases hq1 : specQualifies true r all_rows k = true
    · obtain ⟨cr, hg⟩ := specQualifies_get _ _ _ _ hq1
      rw [if_pos hq1, if_pos hq1]
      simp only [List.get?_eq_getElem?] at hg
      simp [hg]
    · rw [if_neg hq1, if_neg hq1]
      by_cases hq2 : specQualifies true r all_rows (k + 2) = true
      · obtain ⟨cr, hg⟩ := specQualifies_get _ _ _ _ hq2
        rw [if_pos hq2, if_pos hq2]
        simp only [List.get?_eq_getElem?] at hg
        simp [hg]
      · rw [if_neg hq2, if_neg hq2]
        rw [hscan]
        rfl

theorem find_corresponding_negative_row_eq_spec (r : Row) (all_rows : List Row) (i : Nat) :
    find_corresponding_negative_row r all_rows i =
      find_match_as_specified false false r all_rows i := by
  unfold find_corresponding_negative_row find_match_as_specified
  rcases i with _ | k
  · rw [show ((0 : Nat) : Int) - 1 = (-1 : Int) by norm_num,
      tryAdjacentNeg_neg_index r all_rows (-1) (by norm_num),
      show ((0 : Nat) : Int) + 1 = ((1 : Nat) : Int) by norm_num,
      tryAdjacentNeg_natCast,
      show ((if (0 : Nat) = 0 then ([] : List Nat) else [0 - 1]) ++ [0 + 1]) = [1] by norm_num,
      List.filter_cons, List.filter_nil]
    by_cases hq : specQualifies false r all_rows 1 = true
    · obtain ⟨cr, hg⟩ := specQualifies_get _ _ _ _ hq
      rw [if_pos hq, if_pos hq]
      simp only [List.get?_eq_getElem?] at hg
      simp [hg]
    · rw [if_neg hq, if_neg hq]
      rfl
  · rw [show ((k + 1 : Nat) : Int) - 1 = ((k : Nat) : Int) by push_cast; ring,
      show ((k + 1 : Nat) : Int) + 1 = ((k + 2 : Nat) : Int) by push_cast; ring,
      tryAdjacentNeg_natCast, tryAdjacentNeg_natCast,
      show ((if (k + 1 : Nat) = 0 then ([] : List Nat) else [k + 1 - 1]) ++ [k + 1 + 1]) =
        [k, k + 2] by norm_num,
      List.filter_cons, List.filter_cons, List.filter_nil]
    by_cases hq1 : specQualifies false r all_rows k = true
    · obtain ⟨cr, hg⟩ := specQualifies_get _ _ _ _ hq1
      rw [if_pos hq1, if_pos hq1]
      simp only [List.get?_eq_getElem?] at hg
      simp [hg]
    · rw [if_neg hq1, if_neg hq1]
      by_cases hq2 : specQualifies false r all_rows (k + 2) = true
      · obtain ⟨cr, hg⟩ := specQualifies_get _ _ _ _ hq2
        rw [if_pos hq2, if_pos hq2]
        simp only [List.get?_eq_getElem?] at hg
        simp [hg]
      · rw [if_neg hq2, if_neg hq2]
        rfl

theorem reconStep_skip (rows : List Row) (i : Nat) (row : Row) (st : ReconState)
    (h : i ∈ st.skip_indices) : reconStep rows i row st = st := by
  unfold reconStep
  rw [if_pos h]

theorem reconStep_total (rows : List Row) (i : Nat) (row : Row) (st : ReconState)
    (h : i ∉ st.skip_indices) :
    (reconStep rows i row st).total_licenses_before =
      st.total_licenses_before + |convert_german_number row.Amount| := by
  unfold reconStep
  rw [if_neg h]
  simp only [flt_replAll_eq_cgn, qAdd_eq, qAbs_eq]
  by_cases hneg : convert_german_number row.Amount < 0
  · rw [if_pos hneg]
    rcases hf : find_corresponding_row row rows i with _ | found
    · rfl
    · rfl
  · rw [if_neg hneg]
    rcases hf : find_corresponding_negative_row row rows i with _ | found
    · rfl
    · by_cases hsk : found.2 ∈ st.skip_indices
      · simp [hsk]
      · simp [hsk]

theorem reconStep_processed_mono (rows : List Row) (i : Nat) (row : Row) (st : ReconState)
    (x : Row) (hx : x ∈ st.processed_rows) : x ∈ (reconStep rows i row st).processed_rows := by
  unfold reconStep
  by_cases h : i ∈ st.skip_indices
  · rw [if_pos h]
    exact hx
  · rw [if_neg h]
    simp only
    by_cases hneg : flt (replAll ',' '.' row.Amount.toList) < 0
    · rw [if_pos hneg]
      rcases hf : find_corresponding_row row rows i with _ | found
      · exact hx
      · exact List.mem_append_left _ hx
    · rw [if_neg hneg]
      rcases hf : find_corresponding_negative_row row rows i with _ | found
      · exact List.mem_append_left _ hx
      · by_cases hsk : found.2 ∈ st.skip_indices
        · simp only [hsk, if_true]
          exact List.mem_append_left _ hx
        · simp only [hsk, if_false]
          exact hx

theorem reconAux_processed_mono (rows : List Row) (l : List Row) : ∀ (i : Nat)
    (st : ReconState) (x : Row), x ∈ st.processed_rows →
    x ∈ (reconAux rows i l st).processed_rows := by
  induction l with
  | nil => intro i st x hx; exact hx
  | cons c rest ih =>
    intro i st x hx
    exact ih (i + 1) _ x (reconStep_processed_mono rows i c st x hx)

theorem reconStepV_base (rows : List Row) (i : Nat) (row : Row) (st : ReconStateV) :
    (reconStepV rows i row st).base = reconStep rows i row st.base := by
  unfold reconStepV
  by_cases h : i ∈ st.base.skip_indices
  · rw [if_pos h, reconStep_skip rows i row st.base h]
  · rw [if_neg h]

theorem reconAuxV_base (rows : List Row) (l : List Row) : ∀ (i : Nat) (st : ReconStateV),
    (reconAuxV rows i l st).base = reconAux rows i l st.base := by
  induction l with
  | nil => intro i st; rfl
  | cons c rest ih =>
    intro i st
    show (reconAuxV rows (i + 1) rest (reconStepV rows i c st)).base = _
    rw [ih (i + 1) _, reconStepV_base]
    rfl

theorem reconAuxV_total (rows : List Row) (l : List Row) : ∀ (i : Nat) (st : ReconStateV),
    st.base.total_licenses_before =
      (st.visited.map fun r => |convert_german_number r.Amount|).sum →
    (reconAuxV rows i l st).base.total_licenses_before =
      ((reconAuxV rows i l st).visited.map fun r => |convert_german_number r.Amount|).sum := by
  induction l with
  | nil => intro i st h; exact h
  | cons c rest ih =>
    intro i st h
    apply ih
    unfold reconStepV
    by_cases hs : i ∈ st.base.skip_indices
    · rw [if_pos hs]
      exact h
    · rw [if_neg hs]
      show (reconStep rows i c st.base).total_licenses_before = _
      rw [reconStep_total rows i c st.base hs, h]
      simp

theorem reconStep_defer (rows : List Row) (i : Nat) (st : ReconState) (r : Row) (cr : Row)
    (hskip : i ∉ st.skip_indices)
    (hpos : 0 < convert_german_number r.Amount)
    (hfind : find_corresponding_negative_row r rows i = some (cr, i + 1))
    (hskip2 : (i + 1) ∉ st.skip_indices) :
    reconStep rows i r st =
      { st with
        total_licenses_before :=
          qAdd st.total_licenses_before (qAbs (flt (replAll ',' '.' r.Amount.toList))) } := by
  unfold reconStep
  rw [if_neg hskip]
  have hnn : ¬ flt (replAll ',' '.' r.Amount.toList) < 0 := by
    rw [flt_replAll_eq_cgn]
    exact not_lt_of_gt hpos
  rw [if_neg hnn, hfind]
  simp only [hskip2, if_false]

theorem find_row_at_next (rows : List Row) (i : Nat) (r cr : Row)
    (hget : rows.get? i = some r)
    (hkey : keyMatch cr r = true)
    (hpos : 0 < convert_german_number r.Amount) :
    find_corresponding_row cr rows (i + 1) = some (r, i) := by
  unfold find_corresponding_row
  have hcast : ((i + 1 : Nat) : Int) - 1 = ((i : Nat) : Int) := by
    push_cast
    ring
  rw [hcast, tryAdjacentPos_natCast]
  have hq : specQualifies true cr rows i = true := by
    unfold specQualifies
    rw [hget]
    simp [hkey, hpos]
  rw [if_pos hq, hget]
  rfl

theorem find_neg_at_next_elim (rows : List Row) (i : Nat) (r cr : Row)
    (hfind : find_corresponding_negative_row r rows i = some (cr, i + 1)) :
    rows.get? (i + 1) = some cr ∧ keyMatch r cr = true ∧
      convert_german_number cr.Amount < 0 := by
  unfold find_corresponding_negative_row at hfind
  rcases h1 : tryAdjacentNeg r rows ((i : Int) - 1) with _ | x
  · rw [h1] at hfind
    have := tryAdjacentNeg_some r rows _ cr (i + 1) hfind
    exact ⟨this.1, this.2.1, this.2.2.2⟩
  · rw [h1] at hfind
    simp only [Option.some.injEq] at hfind
    subst hfind
    have := tryAdjacentNeg_some r rows _ cr (i + 1) h1
    have hcontra := this.2.2.1
    omega

theorem deferred_next_combined (rows : List Row) (i : Nat) (st : ReconState) (r cr : Row)
    (hget : rows.get? i = some r)
    (hskip : i ∉ st.skip_indices)
    (hpos : 0 < convert_german_number r.Amount)
    (hfind : find_corresponding_negative_row r rows i = some (cr, i + 1))
    (hskip2 : (i + 1) ∉ st.skip_indices) :
    combine_rows cr r ∈ (reconAux rows i (rows.drop i) st).processed_rows := by
  obtain ⟨hget2, hkey, hneg⟩ := find_neg_at_next_elim rows i r cr hfind
  have hlen : i < rows.length := by
    rw [List.get?_eq_getElem?] at hget
    exact (List.getElem?_eq_some_iff.mp hget).1
  have hlen2 : i + 1 < rows.length := by
    rw [List.get?_eq_getElem?] at hget2
    exact (List.getElem?_eq_some_iff.mp hget2).1
  have hdrop1 : rows.drop i = r :: rows.drop (i + 1) := by
    rw [List.drop_eq_getElem_cons hlen]
    congr 1
    rw [List.get?_eq_getElem?] at hget
    exact (List.getElem?_eq_some_iff.mp hget).2.symm ▸ rfl
  have hdrop2 : rows.drop (i + 1) = cr :: rows.drop (i + 2) := by
    rw [List.drop_eq_getElem_cons hlen2]
    congr 1
    rw [List.get?_eq_getElem?] at hget2
    exact (List.getElem?_eq_some_iff.mp hget2).2.symm ▸ rfl
  rw [hdrop1, hdrop2]
  show combine_rows cr r ∈ (reconAux rows (i + 1) (cr :: rows.drop (i + 2))
    (reconStep rows i r st)).processed_rows
  rw [reconStep_defer rows i st r cr hskip hpos hfind hskip2]
  show combine_rows cr r ∈ (reconAux rows (i + 2) (rows.drop (i + 2))
    (reconStep rows (i + 1) cr _)).processed_rows
  apply reconAux_processed_mono
  unfold reconStep
  rw [if_neg (show (i + 1) ∉
    ({ st with
       total_licenses_before :=
         qAdd st.total_licenses_before (qAbs (flt (replAll ',' '.' r.Amount.toList))) } :
      ReconState).skip_indices from hskip2)]
  have hnn : flt (replAll ',' '.' cr.Amount.toList) < 0 := by
    rw [flt_replAll_eq_cgn]
    exact hneg
  rw [if_pos hnn, find_row_at_next rows i r cr hget (keyMatch_symm r cr hkey) hpos]
  simp

theorem validateRowsAux_nil (env : Env) (nr : String) (valid : List Row)
    (errs : List String) : validateRowsAux env nr [] (valid, errs) = (valid, errs) := rfl

theorem validateRowsAux_cons (env : Env) (nr : String) (row : Row) (rest : List Row)
    (valid : List Row) (errs : List String) :
    validateRowsAux env nr (row :: rest) (valid, errs) =
      if String.mk (pyStrip row.ArticleNumber_Mandant.toList) = "" then
        validateRowsAux env nr rest (valid, errs)
      else
        match env.items (String.mk (pyStrip row.ArticleNumber_Mandant.toList)) with
        | none =>
          validateRowsAux env nr rest
            (valid, errs ++ [itemNotFoundErr
              (String.mk (pyStrip row.ArticleNumber_Mandant.toList)) nr])
        | some _ =>
          if convert_german_number row.Amount ≤ 0 then
            validateRowsAux env nr rest
              (valid, errs ++ [invalidQtyErr (convert_german_number row.Amount)
                (String.mk (pyStrip row.ArticleNumber_Mandant.toList)) nr])
          else validateRowsAux env nr rest (valid ++ [row], errs) := rfl

theorem addItemsAux_nil (env : Env) (nr : String) (acc : Invoice × List String × Nat) :
    addItemsAux env nr [] acc = acc := rfl

theorem addItemsAux_cons (env : Env) (nr : String) (row : Row) (rest : List Row)
    (inv : Invoice) (errs : List String) (n : Nat) :
    addItemsAux env nr (row :: rest) (inv, errs, n) =
      match env.items (String.mk (pyStrip row.ArticleNumber_Mandant.toList)) with
      | none =>
        addItemsAux env nr rest
          (inv, errs ++ [itemAddErr (String.mk (pyStrip row.ArticleNumber_Mandant.toList))
            nr], n)
      | some item =>
        if convert_german_number row.Amount ≤ 0 then addItemsAux env nr rest (inv, errs, n)
        else
          addItemsAux env nr rest
            ({ inv with items := inv.items ++
                [{ item_code := item.name
                   customer_item_code := String.mk (pyStrip row.ArticleNumber_Mandant.toList)
                   description := descOf item
                   qty := convert_german_number row.Amount
                   rate := convert_german_number row.Price
                   amount := convert_german_number row.TotalPrice }] },
              errs, n + 1) := rfl

theorem validateRowsAux_all_blank (env : Env) (nr : String) (rows : List Row) :
    ∀ (valid : List Row) (errs : List String),
    (∀ r ∈ rows, String.mk (pyStrip r.ArticleNumber_Mandant.toList) = "") →
    validateRowsAux env nr rows (valid, errs) = (valid, errs) := by
  induction rows with
  | nil => intro valid errs _; rfl
  | cons c rest ih =>
    intro valid errs h
    rw [validateRowsAux_cons, if_pos (h c (by simp))]
    exact ih valid errs fun r hr => h r (by simp [hr])

theorem validateRowsAux_all_good (env : Env) (nr : String) (rows : List Row) :
    ∀ (valid : List Row) (errs : List String),
    (∀ r ∈ rows, String.mk (pyStrip r.ArticleNumber_Mandant.toList) ≠ "" ∧
      (env.items (String.mk (pyStrip r.ArticleNumber_Mandant.toList))).isSome ∧
      0 < convert_german_number r.Amount) →
    validateRowsAux env nr rows (valid, errs) = (valid ++ rows, errs) := by
  induction rows with
  | nil => intro valid errs _; simp [validateRowsAux_nil]
  | cons c rest ih =>
    intro valid errs h
    obtain ⟨h1, h2, h3⟩ := h c (by simp)
    rw [validateRowsAux_cons, if_neg h1]
    rcases hi : env.items (String.mk (pyStrip c.ArticleNumber_Mandant.toList)) with _ | item
    · rw [hi] at h2
      simp at h2
    · have hq : ¬ convert_german_number c.Amount ≤ 0 := not_le_of_gt h3
      simp only [hq, if_false]
      rw [ih (valid ++ [c]) errs fun r hr => h r (by simp [hr])]
      simp

theorem validateRowsAux_unknown_item (env : Env) (nr : String) (row : Row)
    (valid : List Row) (errs : List String)
    (h1 : String.mk (pyStrip row.ArticleNumber_Mandant.toList) ≠ "")
    (h2 : env.items (String.mk (pyStrip row.ArticleNumber_Mandant.toList)) = none) :
    validateRowsAux env nr [row] (valid, errs) =
      (valid, errs ++ [itemNotFoundErr (String.mk (pyStrip row.ArticleNumber_Mandant.toList))
        nr]) := by
  rw [validateRowsAux_cons, if_neg h1, h2]
  rfl

theorem validateRowsAux_bad_qty (env : Env) (nr : String) (row : Row)
    (valid : List Row) (errs : List String) (item : ItemRec)
    (h1 : String.mk (pyStrip row.ArticleNumber_Mandant.toList) ≠ "")
    (h2 : env.items (String.mk (pyStrip row.ArticleNumber_Mandant.toList)) = some item)
    (h3 : convert_german_number row.Amount ≤ 0) :
    validateRowsAux env nr [row] (valid, errs) =
      (valid, errs ++ [invalidQtyErr (convert_german_number row.Amount)
        (String.mk (pyStrip row.ArticleNumber_Mandant.toList)) nr]) := by
  rw [validateRowsAux_cons, if_neg h1, h2]
  simp only [h3, if_true]
  rfl

theorem addItemsAux_all_good (env : Env) (nr : String) (rows : List Row) :
    ∀ (inv : Invoice) (errs : List String) (n : Nat),
    (∀ r ∈ rows, (env.items (String.mk (pyStrip r.ArticleNumber_Mandant.toList))).isSome ∧
      0 < convert_german_number r.Amount) →
    (addItemsAux env nr rows (inv, errs, n)).2.1 = errs ∧
      (addItemsAux env nr rows (inv, errs, n)).2.2 = n + rows.length := by
  induction rows with
  | nil => intro inv errs n _; exact ⟨rfl, rfl⟩
  | cons c rest ih =>
    intro inv errs n h
    obtain ⟨h1, h2⟩ := h c (by simp)
    rcases hi : env.items (String.mk (pyStrip c.ArticleNumber_Mandant.toList)) with _ | item
    · rw [hi] at h1
      simp at h1
    · have hq : ¬ convert_german_number c.Amount ≤ 0 := not_le_of_gt h2
      rw [addItemsAux_cons, hi]
      simp only [hq, if_false]
      have hrec := ih ({ inv with items := inv.items ++
          [{ item_code := item.name
             customer_item_code := String.mk (pyStrip c.ArticleNumber_Mandant.toList)
             description := descOf item
             qty := convert_german_number c.Amount
             rate := convert_german_number c.Price
             amount := convert_german_number c.TotalPrice }] })
        errs (n + 1) fun r hr => h r (by simp [hr])
      refine ⟨hrec.1, ?_⟩
      rw [hrec.2, List.length_cons]
      omega

theorem addItemsAux_errs_all_good (env : Env) (nr : String) (rows : List Row)
    (h : ∀ r ∈ rows, (env.items (String.mk (pyStrip r.ArticleNumber_Mandant.toList))).isSome ∧
      0 < convert_german_number r.Amount) :
    ∀ (inv : Invoice) (errs : List String) (n : Nat),
      (addItemsAux env nr rows (inv, errs, n)).2.1 = errs := fun inv errs n =>
  (addItemsAux_all_good env nr rows inv errs n h).1

theorem addItemsAux_count_all_good (env : Env) (nr : String) (rows : List Row)
    (h : ∀ r ∈ rows, (env.items (String.mk (pyStrip r.ArticleNumber_Mandant.toList))).isSome ∧
      0 < convert_german_number r.Amount) :
    ∀ (inv : Invoice) (errs : List String) (n : Nat),
      (addItemsAux env nr rows (inv, errs, n)).2.2 = n + rows.length := fun inv errs n =>
  (addItemsAux_all_good env nr rows inv errs n h).2

theorem create_safe_zero_suppressed (env : Env) (settings_doc : Settings) (nr : String)
    (rows : List Row) (errs : List String) (cust : CustomerRec) (acc : String)
    (hnull : settings_doc.nullrechnungen_unterdruecken = true)
    (hcalc : ∀ inv, env.calcTotals inv = some 0)
    (hcust : env.customers nr = some cust)
    (hrows : rows ≠ [])
    (hvalid : ∀ r ∈ rows,
      (env.items (String.mk (pyStrip r.ArticleNumber_Mandant.toList))).isSome ∧
      0 < convert_german_number r.Amount)
    (htax : settings_doc.tax_account = some acc) :
    create_wortmann_sales_invoice_safe env nr rows settings_doc errs =
      { invoice := none, errors := errs, persisted := false } := by
  unfold create_wortmann_sales_invoice_safe
  rw [hcust]
  simp only
  rw [addItemsAux_errs_all_good env nr rows hvalid,
    addItemsAux_count_all_good env nr rows hvalid]
  rw [if_neg (by
    simp only [Nat.zero_add]
    exact fun hz => hrows (List.length_eq_zero.mp hz))]
  rw [htax]
  simp only
  rw [hcalc _]
  simp only
  rw [if_pos (by exact ⟨hnull, trivial⟩)]

theorem processCustomerStep_zero_suppressed (env : Env) (settings_doc : Settings)
    (nr : String) (rows : List Row) (st : CustomerLoopState) (cust : CustomerRec)
    (acc : String)
    (hnull : settings_doc.nullrechnungen_unterdruecken = true)
    (hcalc : ∀ inv, env.calcTotals inv = some 0)
    (hcust : env.customers nr = some cust)
    (hrows : rows ≠ [])
    (hvalid : ∀ r ∈ rows,
      String.mk (pyStrip r.ArticleNumber_Mandant.toList) ≠ "" ∧
      (env.items (String.mk (pyStrip r.ArticleNumber_Mandant.toList))).isSome ∧
      0 < convert_german_number r.Amount)
    (htax : settings_doc.tax_account = some acc) :
    processCustomerStep env settings_doc nr rows st = st := by
  unfold processCustomerStep
  rw [hcust]
  simp only
  rw [validateRowsAux_all_good env nr rows [] st.errors hvalid, List.nil_append]
  rw [if_pos (show rows ≠ [] from hrows)]
  rw [create_safe_zero_suppressed env settings_doc nr rows st.errors cust acc hnull hcalc
    hcust hrows (fun r hr => ⟨(hvalid r hr).2.1, (hvalid r hr).2.2⟩) htax]

theorem processCustomerStep_all_blank (env : Env) (settings_doc : Settings)
    (nr : String) (rows : List Row) (st : CustomerLoopState) (cust : CustomerRec)
    (hcust : env.customers nr = some cust)
    (hblank : ∀ r ∈ rows, String.mk (pyStrip r.ArticleNumber_Mandant.toList) = "") :
    processCustomerStep env settings_doc nr rows st =
      { st with errors := st.errors ++ [noValidItemsErr nr] } := by
  unfold processCustomerStep
  rw [hcust]
  simp only
  rw [validateRowsAux_all_blank env nr rows [] st.errors hblank]
  rw [if_neg (by simp)]

/-! ## The claim theorems -/

/-- C1: on the 3-row input (CustCorp,Ref1,Art1,5), (CustCorp,Ref1,Art1,−2),
(CustCorp,Ref2,Art2,3), the reconciliation pass of `process_csv_import`
produces exactly 2 reconciled rows — the merged Ref1 row (the combination
of the negative row with the first row) with normalized Amount 3, and the
standalone Ref2 row with Amount 3 — and `total_licenses_before` is
5 + 2 + 3 = 10. -/
theorem C1_three_row_scenario :
    (reconcilePass c1rows).processed_rows.length = 2 ∧
    (reconcilePass c1rows).processed_rows.get? 0 = some (combine_rows c1row2 c1row1) ∧
    ((reconcilePass c1rows).processed_rows.get? 0).map
      (fun r => (r.ReferenceNumber, convert_german_number r.Amount)) = some ("Ref1", 3) ∧
    (reconcilePass c1rows).processed_rows.get? 1 = some c1row3 ∧
    convert_german_number c1row3.Amount = 3 ∧
    (reconcilePass c1rows).total_licenses_before = 10 := by
  decide

/-- C2 counterexample: on [P0 = +5, N1 = −2, P2 = +3] (all sharing one
match key), the pass at index 2 defers P2 — it finds the negative row N1 at
index 1, which is not in the skip set — yet no combined row containing P2
is ever produced: the reconciled output is exactly the merge of N1 with P0,
and P2 is silently lost. -/
theorem C2_deferred_row_lost :
    0 ≤ convert_german_number c2rowP2.Amount ∧
    find_corresponding_negative_row c2rowP2 c2rows 2 = some (c2rowN1, 1) ∧
    1 ∉ (reconAux c2rows 0 (c2rows.take 2) ⟨[], [], 0, []⟩).skip_indices ∧
    2 ∉ (reconAux c2rows 0 (c2rows.take 2) ⟨[], [], 0, []⟩).skip_indices ∧
    (reconcilePass c2rows).processed_rows = [combine_rows c2rowN1 c2rowP0] ∧
    c2rowP2 ∉ (reconcilePass c2rows).processed_rows ∧
    combine_rows c2rowN1 c2rowP2 ∉ (reconcilePass c2rows).processed_rows := by
  decide

/-- C2 (amended): a deferred positive row is guaranteed to reappear only
when its found negative partner lies at the NEXT index `i + 1` and the
row's amount is strictly positive: then, when the pass reaches that
negative row, the combined row containing the deferred positive row is
emitted.  (When the found partner lies at `i − 1`, the deferral can lose
the row, see the counterexample.) -/
theorem C2_deferred_next_partner_combined (rows : List Row) (i : Nat) (st : ReconState)
    (r cr : Row)
    (hget : rows.get? i = some r)
    (hskip : i ∉ st.skip_indices)
    (hpos : 0 < convert_german_number r.Amount)
    (hfind : find_corresponding_negative_row r rows i = some (cr, i + 1))
    (hskip2 : (i + 1) ∉ st.skip_indices) :
    combine_rows cr r ∈ (reconAux rows i (rows.drop i) st).processed_rows :=
  deferred_next_combined rows i st r cr hget hskip hpos hfind hskip2

/-- Witness for the amended C2 at a concrete input: on [P = +5, N = −2]
the deferred P is emitted inside the combined row. -/
theorem C2_deferred_next_partner_combined_witness :
    combine_rows c2wN c2wP ∈ (reconcilePass [c2wP, c2wN]).processed_rows :=
  C2_deferred_next_partner_combined [c2wP, c2wN] 0 ⟨[], [], 0, []⟩ c2wP c2wN
    (by decide) (by decide) (by decide) (by decide) (by decide)

/-- C3: both matcher directions agree everywhere with the specification's
Matcher: adjacent indices `i − 1` then `i + 1` first with the requested
sign, an immediate hit returned; only the negative→positive direction falls
back to a full ascending scan over all rows excluding the query index,
while the positive→negative direction returns `none` with no fallback. -/
theorem C3_matcher_adjacent_first_then_fallback :
    ∀ (row : Row) (all_rows : List Row) (i : Nat),
      find_corresponding_row row all_rows i =
        find_match_as_specified true true row all_rows i ∧
      find_corresponding_negative_row row all_rows i =
        find_match_as_specified false false row all_rows i :=
  fun row all_rows i =>
    ⟨find_corresponding_row_eq_spec row all_rows i,
     find_corresponding_negative_row_eq_spec row all_rows i⟩

/-- C4: the number normalizer behaves exactly as specified: empty input
yields 0, otherwise the first comma is replaced by a period and the result
is parsed as a float, unparsable input yielding 0 instead of an exception.
(The source replaces EVERY comma, but the two readings agree on all
strings: with at most one comma they coincide syntactically, and with two
or more commas both parses fail and both yield 0.) -/
theorem C4_normalizer_as_specified :
    convert_german_number "" = 0 ∧
    ∀ s : String, convert_german_number s = convert_german_number_as_specified s :=
  ⟨by decide, convert_german_number_eq_specified⟩

/-- C5: tax-rate resolution: no configured account yields 19; a failing
account lookup (the raised exception) yields 19; a present truthy
`tax_rate` attribute wins; else a present truthy `rate` attribute; else the
value of the first percentage pattern in the account name; else 19. -/
theorem C5_tax_rate_resolution :
    ∀ (lookup : String → Option AccountRec) (s : Settings),
      (s.tax_account = none → get_dynamic_tax_rate lookup s = 19) ∧
      (∀ a, s.tax_account = some a → lookup a = none →
        get_dynamic_tax_rate lookup s = 19) ∧
      (∀ a acc r, s.tax_account = some a → lookup a = some acc →
        acc.tax_rate = some r → r ≠ 0 → get_dynamic_tax_rate lookup s = r) ∧
      (∀ a acc r, s.tax_account = some a → lookup a = some acc →
        (acc.tax_rate = none ∨ acc.tax_rate = some 0) → acc.rate = some r → r ≠ 0 →
        get_dynamic_tax_rate lookup s = r) ∧
      (∀ a acc g, s.tax_account = some a → lookup a = some acc →
        (acc.tax_rate = none ∨ acc.tax_rate = some 0) →
        (acc.rate = none ∨ acc.rate = some 0) →
        searchPercent acc.account_name.toList = some g →
        get_dynamic_tax_rate lookup s = flt g) ∧
      (∀ a acc, s.tax_account = some a → lookup a = some acc →
        (acc.tax_rate = none ∨ acc.tax_rate = some 0) →
        (acc.rate = none ∨ acc.rate = some 0) →
        searchPercent acc.account_name.toList = none →
        get_dynamic_tax_rate lookup s = 19) := by
  intro lookup s
  refine ⟨?_, ?_, ?_, ?_, ?_, ?_⟩
  · intro h
    unfold get_dynamic_tax_rate
    rw [h]
  · intro a h1 h2
    unfold get_dynamic_tax_rate
    simp only [h1, h2]
  · intro a acc r h1 h2 h3 h4
    unfold get_dynamic_tax_rate
    simp only [h1, h2, h3]
    rw [if_neg h4]
  · intro a acc r h1 h2 h3 h4 h5
    unfold get_dynamic_tax_rate rateStep2
    rcases h3 with h3 | h3 <;> simp only [h1, h2, h3, h4] <;> simp [h5]
  · intro a acc g h1 h2 h3 h4 h5
    unfold get_dynamic_tax_rate rateStep2 rateFromName
    rcases h3 with h3 | h3 <;> rcases h4 with h4 | h4 <;>
      simp only [h1, h2, h3, h4, h5] <;> simp
  · intro a acc h1 h2 h3 h4 h5
    unfold get_dynamic_tax_rate rateStep2 rateFromName
    rcases h3 with h3 | h3 <;> rcases h4 with h4 | h4 <;>
      simp only [h1, h2, h3, h4, h5] <;> simp

/-- Witness for C5 at a concrete input: with no configured tax account the
resolver yields 19. -/
theorem C5_tax_rate_resolution_witness :
    get_dynamic_tax_rate (fun _ => none) ⟨none, false, []⟩ = 19 :=
  (C5_tax_rate_resolution (fun _ => none) ⟨none, false, []⟩).1 rfl

/-- C6: when the suppress-zero-invoices setting is on and the engine's
grand total is zero, the assembled invoice is discarded before persistence
(`invoice = none`, nothing persisted, the error list untouched by the
discard), and the caller neither increments `invoices_created` nor records
the customer in `successful_customers` nor appends any error: the loop
state is unchanged. -/
theorem C6_zero_total_invoice_discarded :
    ∀ (env : Env) (settings_doc : Settings) (nr : String) (rows : List Row)
      (st : CustomerLoopState) (errs : List String) (cust : CustomerRec) (acc : String),
      settings_doc.nullrechnungen_unterdruecken = true →
      (∀ inv, env.calcTotals inv = some 0) →
      env.customers nr = some cust →
      rows ≠ [] →
      (∀ r ∈ rows, String.mk (pyStrip r.ArticleNumber_Mandant.toList) ≠ "" ∧
        (env.items (String.mk (pyStrip r.ArticleNumber_Mandant.toList))).isSome ∧
        0 < convert_german_number r.Amount) →
      settings_doc.tax_account = some acc →
      create_wortmann_sales_invoice_safe env nr rows settings_doc errs =
        { invoice := none, errors := errs, persisted := false } ∧
      processCustomerStep env settings_doc nr rows st = st := by
  intro env settings_doc nr rows st errs cust acc hnull hcalc hcust hrows hvalid htax
  refine ⟨?_, ?_⟩
  · exact create_safe_zero_suppressed env settings_doc nr rows errs cust acc hnull hcalc
      hcust hrows (fun r hr => ⟨(hvalid r hr).2.1, (hvalid r hr).2.2⟩) htax
  · exact processCustomerStep_zero_suppressed env settings_doc nr rows st cust acc hnull
      hcalc hcust hrows hvalid htax

/-- Witness for C6 at a concrete input. -/
theorem C6_zero_total_invoice_discarded_witness :
    create_wortmann_sales_invoice_safe c6env "1000" [c6row] c6settings [] =
      { invoice := none, errors := [], persisted := false } ∧
    processCustomerStep c6env c6settings "1000" [c6row] ⟨0, 0, [], []⟩ = ⟨0, 0, [], []⟩ :=
  C6_zero_total_invoice_discarded c6env c6settings "1000" [c6row] ⟨0, 0, [], []⟩ []
    ⟨"CUST-1", "Corp"⟩ "VAT 19 % - C" rfl (fun _ => rfl) rfl (by decide) (by decide) rfl

/-- C7: the combined row is the positive row with only `Amount` and
`TotalPrice` changed, each to the comma-rendered sum of the two rows'
normalized values; every other field — the key fields, `Price`, `Currency`
and all remaining columns — is the positive row's value, and nothing else
is taken from the negative row. -/
theorem C7_combine_rows_frame :
    ∀ (negative_row positive_row : Row),
      (combine_rows negative_row positive_row).CustomCustomerNr =
        positive_row.CustomCustomerNr ∧
      (combine_rows negative_row positive_row).ReferenceNumber =
        positive_row.ReferenceNumber ∧
      (combine_rows negative_row positive_row).ArticleNumber_Mandant =
        positive_row.ArticleNumber_Mandant ∧
      (combine_rows negative_row positive_row).Price = positive_row.Price ∧
      (combine_rows negative_row positive_row).Currency = positive_row.Currency ∧
      (combine_rows negative_row positive_row).extra = positive_row.extra ∧
      (combine_rows negative_row positive_row).Amount =
        denormalize (convert_german_number positive_row.Amount +
          convert_german_number negative_row.Amount) ∧
      (combine_rows negative_row positive_row).TotalPrice =
        denormalize (convert_german_number positive_row.TotalPrice +
          convert_german_number negative_row.TotalPrice) := by
  intro n p
  refine ⟨rfl, rfl, rfl, rfl, rfl, rfl, ?_, ?_⟩
  · show denormalize (qAdd _ _) = _
    rw [qAdd_eq]
  · show denormalize (qAdd _ _) = _
    rw [qAdd_eq]

/-- C8: normalizing the denormalized rendering returns the value exactly
(tolerance 0 in the rational model) for every value with a finite decimal
expansion — which includes every finite IEEE double. -/
theorem C8_normalize_denormalize_roundtrip :
    ∀ q : ℚ, hasDecimalDen q → convert_german_number (denormalize q) = q :=
  fun q hq => convert_german_number_denormalize q hq

/-- Witness for C8 at the concrete value 135.4. -/
theorem C8_normalize_denormalize_roundtrip_witness :
    hasDecimalDen (mkRat 677 5) ∧
      convert_german_number (denormalize (mkRat 677 5)) = mkRat 677 5 :=
  ⟨by decide, C8_normalize_denormalize_roundtrip (mkRat 677 5) (by decide)⟩

/-- C9: `total_licenses_before` is the sum of the absolute normalized
amounts over exactly the VISITED (non-skipped) rows, and this differs from
the sum over all input rows: when a negative row precedes its positive
merge partner, the partner is added to the skip set before the loop
reaches it, so on [N = −2, P = +5] the total is 2 (only N is visited),
not 7. -/
theorem C9_total_sums_visited_rows_only :
    (∀ rows : List Row, (reconcilePass rows).total_licenses_before =
      ((visitedRows rows).map fun r => |convert_german_number r.Amount|).sum) ∧
    (reconcilePass [c9rowN, c9rowP]).total_licenses_before = 2 ∧
    visitedRows [c9rowN, c9rowP] = [c9rowN] ∧
    (([c9rowN, c9rowP].map fun r => |convert_german_number r.Amount|).sum = 7) := by
  refine ⟨?_, by decide, by decide, ?_⟩
  · intro rows
    unfold reconcilePass visitedRows
    rw [← reconAuxV_base rows rows 0 ⟨⟨[], [], 0, []⟩, []⟩]
    exact reconAuxV_total rows rows 0 _ (by simp)
  · have h1 : convert_german_number c9rowN.Amount = -2 := by decide
    have h2 : convert_german_number c9rowP.Amount = 5 := by decide
    simp only [List.map_cons, List.map_nil, List.sum_cons, List.sum_nil, h1, h2]
    rw [abs_of_neg (by norm_num : (-2 : ℚ) < 0), abs_of_pos (by norm_num : (0 : ℚ) < 5)]
    norm_num

/-- C10: per-customer validation drops a row whose article number is blank
or whitespace-only WITHOUT appending an error, while an unknown article
number and a non-positive quantity each append one; a customer whose rows
all have blank article numbers reaches the zero-valid-rows branch and gets
only the generic "No valid items found" error. -/
theorem C10_blank_article_rows_dropped_silently :
    ∀ (env : Env) (settings_doc : Settings) (nr : String) (rows : List Row)
      (st : CustomerLoopState) (row : Row) (valid : List Row) (errs : List String),
      ((∀ r ∈ rows, String.mk (pyStrip r.ArticleNumber_Mandant.toList) = "") →
        validateRowsAux env nr rows (valid, errs) = (valid, errs)) ∧
      (String.mk (pyStrip row.ArticleNumber_Mandant.toList) ≠ "" →
        env.items (String.mk (pyStrip row.ArticleNumber_Mandant.toList)) = none →
        validateRowsAux env nr [row] (valid, errs) =
          (valid, errs ++ [itemNotFoundErr
            (String.mk (pyStrip row.ArticleNumber_Mandant.toList)) nr])) ∧
      (∀ item, String.mk (pyStrip row.ArticleNumber_Mandant.toList) ≠ "" →
        env.items (String.mk (pyStrip row.ArticleNumber_Mandant.toList)) = some item →
        convert_german_number row.Amount ≤ 0 →
        validateRowsAux env nr [row] (valid, errs) =
          (valid, errs ++ [invalidQtyErr (convert_german_number row.Amount)
            (String.mk (pyStrip row.ArticleNumber_Mandant.toList)) nr])) ∧
      (∀ cust, env.customers nr = some cust →
        (∀ r ∈ rows, String.mk (pyStrip r.ArticleNumber_Mandant.toList) = "") →
        processCustomerStep env settings_doc nr rows st =
          { st with errors := st.errors ++ [noValidItemsErr nr] }) := by
  intro env settings_doc nr rows st row valid errs
  refine ⟨?_, ?_, ?_, ?_⟩
  · intro h
    exact validateRowsAux_all_blank env nr rows valid errs h
  · intro h1 h2
    exact validateRowsAux_unknown_item env nr row valid errs h1 h2
  · intro item h1 h2 h3
    exact validateRowsAux_bad_qty env nr row valid errs item h1 h2 h3
  · intro cust h1 h2
    exact processCustomerStep_all_blank env settings_doc nr rows st cust h1 h2

/-- Witness for C10 at a concrete input: one whitespace-article row yields
only the generic error. -/
theorem C10_blank_article_rows_dropped_silently_witness :
    processCustomerStep c6env c6settings "1000" [c10row] ⟨0, 0, [], []⟩ =
      ⟨0, 0, [], [noValidItemsErr "1000"]⟩ :=
  (C10_blank_article_rows_dropped_silently c6env c6settings "1000" [c10row]
    ⟨0, 0, [], []⟩ c10row [] []).2.2.2 ⟨"CUST-1", "Corp"⟩ rfl (by decide)

end CsvWortmann
